import Mathlib

/-!
Verification of the InternetRadio HTTP server core (`src/http-server.c`).

The C code is shallowly embedded: C strings become `List Char` (with the
terminating NUL made explicit where the code relies on it), machine integers
become `Nat`/`Int` with explicit `% 2^w` where a conversion matters, and
each embedded definition is translated from one function of the source.
-/

set_option maxHeartbeats 1000000

namespace HttpSrv

/-- The NUL character terminating C strings. -/
def NUL : Char := Char.ofNat 0

/-- Read a byte of a C string held as a `List Char`: positions at or past the
end read the NUL terminator. -/
def cAt (s : List Char) (i : Nat) : Char := s.getD i NUL

/-- `strlen`: number of characters before the first NUL. -/
def strlenC (s : List Char) : Nat := (s.takeWhile (fun c => c ≠ NUL)).length

/-- `strncmp(a,b,n) == 0` with C-string semantics: compare up to `n`
characters, stopping early when both strings end together. -/
def strncmpEq : Nat → List Char → List Char → Bool
  | 0, _, _ => true
  | n+1, a, b =>
    if a.headD NUL = b.headD NUL then
      (if a.headD NUL = NUL then true else strncmpEq n a.tail b.tail)
    else false

/-- `strcmp(a,b) == 0` with C-string semantics. -/
def strcmpEq : List Char → List Char → Bool
  | [], [] => true
  | [], c :: _ => c = NUL
  | c :: _, [] => c = NUL
  | c :: a, d :: b => if c = d then (if c = NUL then true else strcmpEq a b) else false

/-- `tolower` on ASCII, as used by `strcasecmp`. -/
def lowerC (c : Char) : Char :=
  if 'A' ≤ c ∧ c ≤ 'Z' then Char.ofNat (c.toNat + 32) else c

/-- `strncasecmp(a,b,n) == 0` with C-string semantics. -/
def strncaseEq : Nat → List Char → List Char → Bool
  | 0, _, _ => true
  | n+1, a, b =>
    if lowerC (a.headD NUL) = lowerC (b.headD NUL) then
      (if lowerC (a.headD NUL) = NUL then true else strncaseEq n a.tail b.tail)
    else false

/-- `strcasecmp(a,b) == 0` with C-string semantics. -/
def strcaseEq : List Char → List Char → Bool
  | [], [] => true
  | [], c :: _ => lowerC c = NUL
  | c :: _, [] => lowerC c = NUL
  | c :: a, d :: b =>
    if lowerC c = lowerC d then (if lowerC c = NUL then true else strcaseEq a b) else false

/-- Return codes of the server (`retcode_enum`). -/
inductive Retcode where
  | FILE_NOT_FOUND
  | BUFFERED
  | BUFFER_OVERFLOW
  | WRITE_DATA
  | READ_DATA
  | READ_WRITE_DATA
  | CLOSE_SOCKET
  | SUCCESS
deriving Repr, DecidableEq

/-- `flags & bit` viewed as a Bool. -/
def testBit (flags bit : Nat) : Bool := flags.land bit ≠ 0

-- content flags (`content_flags_enum`)
def CONT_STOP : Nat := 8
def CONT_PREFIX_MATCH : Nat := 16
def CONT_DIR_MATCH : Nat := 32

/-- The URL-pattern check of `handle_request` (http-server.c:710-735): decides
whether a content rule with the given flags and url pattern applies to the
request URL.  `true` means the rule's handler is invoked. -/
def urlMatches (flags : Nat) (pattern url : List Char) : Bool :=
  if testBit flags CONT_PREFIX_MATCH then
    -- simple prefix match
    strncmpEq (strlenC pattern) pattern url
  else if testBit flags CONT_DIR_MATCH then
    -- directory prefix match
    let url_len := strlenC pattern
    if ¬ strncmpEq url_len pattern url then false
    else if url_len > 0 ∧ cAt pattern (url_len - 1) = '/' then
      -- only URLs starting with the exact string and strictly longer than it
      ¬ (cAt url url_len = NUL)
    else
      -- only URLs either identical or continuing with '/'
      ¬ (cAt url url_len ≠ NUL ∧ cAt url url_len ≠ '/')
  else
    -- full match
    strcmpEq pattern url

def AF_INET : Nat := 2
def AF_INET6 : Nat := 10

/-- Remote peer address: `struct sockaddr_storage` viewed through the union of
`sockaddr_in` (32-bit `sin_addr.s_addr`) and `sockaddr_in6` (16 `s6_addr`
bytes). -/
structure SockAddr where
  family : Nat
  addr4 : Nat
  addr6 : List Nat
deriving Repr, DecidableEq

/-- `MATCH_IP_REQ` (http-server.c:132-140): does the stored peer address of a
slot match the given address?  IPv4 compares the 4 bytes of `s_addr`, IPv6 the
16 bytes of `s6_addr`, any other family never matches. -/
def MATCH_IP_REQ (c rip : SockAddr) : Bool :=
  if rip.family = AF_INET then decide (c.addr4 = rip.addr4)
  else if rip.family = AF_INET6 then decide (c.addr6 = rip.addr6)
  else false

/-- The canned overload response written directly to a rejected socket
(http-server.c:1538).  The C call writes 94 bytes: the 93 characters of the
literal plus its NUL terminator. -/
def canned503 : List Char :=
  ("HTTP/1.1 503 Service unavailable\r\nContent-Length: 37\r\n\r\n503 - Service temporarily unavailable").data ++ [NUL]

/-- Outcome of one accept: either the canned 503 is written to the new socket
and it is closed (slots unchanged), or the connection is installed into slot
`j`. -/
inductive AcceptOut where
  | reject (sent : List Char) (slots : List (Option SockAddr))
  | accepted (j : Nat) (slots : List (Option SockAddr))
deriving Repr, DecidableEq

/-- `for( j = 0; (j < max_connections) && (fds[j].fd >= 0); j++ );` -/
def freeSlotIdx (slots : List (Option SockAddr)) : Nat :=
  (slots.takeWhile Option.isSome).length

/-- Count of active slots whose peer matches `rip` (`MATCH_IP_REQ` loop). -/
def countSameIp (slots : List (Option SockAddr)) (rip : SockAddr) : Nat :=
  (slots.filter (fun s => match s with
    | some a => MATCH_IP_REQ a rip
    | none => false)).length

/-- The admission decision of `http_server_main` after `accept4`
(http-server.c:1529-1555).  `slots` has one entry per connection slot
(`none` = free, i.e. `fds[j].fd < 0`). -/
def acceptStep (maxClientConn : Nat) (slots : List (Option SockAddr)) (rip : SockAddr) :
    AcceptOut :=
  let j := freeSlotIdx slots
  let count := countSameIp slots rip
  if j = slots.length ∨ count > maxClientConn then
    .reject canned503 slots
  else
    .accepted j (slots.set j (some rip))

def peerA : SockAddr := ⟨AF_INET, 167772161, List.replicate 16 0⟩

-- HTTP status codes used here (`statuscode_enum`)
def HTTP_BAD_REQUEST : Nat := 400
def HTTP_TOO_LARGE : Nat := 413
def HTTP_NOT_IMPLEMENTED : Nat := 501

/-- `isspace` in the C locale. -/
def isSpaceC (c : Char) : Bool :=
  decide (c = ' ') || decide (c = '\t') || decide (c = '\n') ||
  decide (c = Char.ofNat 11) || decide (c = Char.ofNat 12) || decide (c = '\r')

def isDigit10 (c : Char) : Bool := decide ('0' ≤ c) && decide (c ≤ '9')

def LONG_MAX : Int := 2 ^ 63 - 1
def LONG_MIN : Int := -(2 ^ 63)

/-- `strtol(nptr, &endptr, 10)`: skip C whitespace, read an optional sign and
decimal digits, clamp to `long` range on overflow.  Returns the value and the
remainder of the string at `endptr`; when no digits are consumed C leaves
`endptr = nptr`, so the whole input is returned. -/
def strtol10 (v : List Char) : Int × List Char :=
  let w := v.dropWhile isSpaceC
  let neg : Bool := w.headD NUL = '-'
  let w2 := if w.headD NUL = '-' ∨ w.headD NUL = '+' then w.tail else w
  let ds := w2.takeWhile isDigit10
  if ds = [] then (0, v)
  else
    let n : Nat := ds.foldl (fun a c => a * 10 + (c.toNat - 48)) 0
    let val : Int := if neg then -(n : Int) else (n : Int)
    (max (min val LONG_MAX) LONG_MIN, w2.drop ds.length)

/-- `strspn( p, " \t" )` membership. -/
def isWsp (c : Char) : Bool := decide (c = ' ') || decide (c = '\t')

/-- The request fields that the recognized-header code of `read_head`
updates. -/
structure HeadSt where
  cl : Nat
  rl : Nat
  chunked : Bool
  host : Option (List Char)
  closeFlag : Bool
deriving Repr, DecidableEq

/-- Result of processing one header line: continue with an updated state, or
send `write_response(code)` and return `CLOSE_SOCKET`. -/
inductive HeadResult where
  | ok (st : HeadSt)
  | resp (code : Nat)
deriving Repr, DecidableEq

/-- Processing of one already split and whitespace-trimmed header line by
`read_head` (http-server.c:891-939).  `p` holds the line's characters. -/
def processHeaderLine (max_req_len : Nat) (st : HeadSt) (p : List Char) : HeadResult :=
  if strncaseEq 15 p ("Content-Length:").data then
    let r := strtol10 (p.drop 15)
    let cl : Nat := (r.1 % (2 ^ 32 : Int)).toNat  -- unsigned int cl = strtol( p+15, &perr, 10 )
    -- if( *perr != '\0' || cl < 0 || (c->cl > 0 && cl != c->cl) ) — `cl < 0` is
    -- vacuous on the unsigned type
    if r.2.headD NUL ≠ NUL ∨ cl < 0 ∨ (st.cl > 0 ∧ cl ≠ st.cl) then .resp HTTP_BAD_REQUEST
    else if cl > max_req_len then .resp HTTP_TOO_LARGE
    else .ok { st with cl := cl, rl := st.rl + cl }
  else if strncaseEq 18 p ("Transfer-Encoding:").data then
    if ¬ strcaseEq ((p.drop 18).dropWhile isWsp) ("chunked").data then
      .resp HTTP_NOT_IMPLEMENTED
    else .ok { st with chunked := true }
  else if strncaseEq 5 p ("Host:").data then
    if st.host.isSome then .resp HTTP_BAD_REQUEST
    else .ok { st with host := some ((p.drop 5).dropWhile isWsp) }
  else if strncaseEq 11 p ("Connection:").data then
    if strcaseEq ((p.drop 11).dropWhile isWsp) ("close").data then
      .ok { st with closeFlag := true }
    else .ok st
  else .ok st

/-- The header loop of `read_head` over the split lines, stopping at the
first error response. -/
def processHeaderLines (max_req_len : Nat) : HeadSt → List (List Char) → HeadResult
  | st, [] => .ok st
  | st, l :: ls =>
    match processHeaderLine max_req_len st l with
    | .ok st2 => processHeaderLines max_req_len st2 ls
    | .resp code => .resp code

/-- State at entry of the header loop: no Content-Length seen (`c->cl = 0`). -/
def initHeadSt : HeadSt := ⟨0, 0, false, none, false⟩

/-- Decimal value of a digit string, with the same accumulator as the
conversion loop of `strtol`. -/
def natOfDigits (ds : List Char) : Nat := ds.foldl (fun a c => a * 10 + (c.toNat - 48)) 0

-- memory flags (`wbchain_flags_enum`)
def MEM_FD : Nat := 1
def MEM_PTR : Nat := 2
def MEM_KEEP : Nat := 4
def FD_KEEP : Nat := 4
def MEM_FREE : Nat := 8
def FD_CLOSE : Nat := 8
def MEM_COPY : Nat := 16

/-- One `struct wbchain_struct` entry.  `payload` holds the pointed-to bytes
for `MEM_PTR` segments, or the contents of the file behind the descriptor for
`MEM_FD` segments. -/
structure WbSeg where
  flags : Nat
  payload : List Char
  offset : Nat
  len : Nat
deriving Repr, DecidableEq

/-- `WB_SIZE` (http-server.c:108-117): total buffered byte count, pointer
segments only. -/
def WB_SIZE : List WbSeg → Nat
  | [] => 0
  | s :: rest => (if testBit s.flags MEM_PTR then s.len else 0) + WB_SIZE rest

/-- The bytes a segment still has to transmit. -/
def segBytes (s : WbSeg) : List Char := (s.payload.drop s.offset).take s.len

def pendingBytes (wb : List WbSeg) : List Char := (wb.map segBytes).flatten

/-- Concatenated bytes of an iovec array (pairs of buffer and ownership
flag; a NULL `flags` argument in C means `MEM_COPY` for every entry). -/
def iovFlat (iov : List (List Char × Nat)) : List Char := (iov.map Prod.fst).flatten

def iovTotal (iov : List (List Char × Nat)) : Nat := (iov.map (fun v => v.1.length)).sum

/-- Segment construction of `bwrite` for a partially unwritten iovec
(http-server.c:281-314): `MEM_COPY` copies the remaining bytes into the
segment, otherwise the caller's buffer is retained from position `rc` on;
either way the segment will transmit `v.drop rc`. -/
def mkSeg (f : Nat) (v : List Char) (rc : Nat) : WbSeg :=
  { flags := (if testBit f MEM_COPY then MEM_COPY
              else f.land (MEM_KEEP.lor MEM_FREE)).lor MEM_PTR,
    payload := v.drop rc, offset := 0, len := v.length - rc }

/-- The append loop of `bwrite`: skip fully written vectors, buffer the rest. -/
def mkPtrSegs : List (List Char × Nat) → Nat → List WbSeg
  | [], _ => []
  | (v, f) :: rest, rc =>
    if v.length ≤ rc then mkPtrSegs rest (rc - v.length)
    else mkSeg f v rc :: mkPtrSegs rest 0

/-- Outcome of `bwrite`/`bsendfile`: return code, segments appended at the
tail of the chain (the new chain is `wb ++ queued`), and the bytes the call
transmitted directly on the socket. -/
structure BwriteOut where
  rc : Retcode
  queued : List WbSeg
  sent : List Char
deriving Repr, DecidableEq

/-- `bwrite` (http-server.c:233-325).  `wrc` is the byte count reported by
`writev` (the kernel writes a prefix of the concatenated vectors; negative
results are treated as 0 by the code, modeled by `wrc` being a `Nat`, and the
kernel never reports more than the total, modeled by the `min`).  A direct
write is attempted only when the chain is empty. -/
def bwrite (max_wb_len : Nat) (wb : List WbSeg) (iov : List (List Char × Nat)) (wrc : Nat) :
    BwriteOut :=
  let len := iovTotal iov
  let rc := if wb.isEmpty then min wrc len else 0
  if wb.isEmpty ∧ rc = len then
    { rc := .SUCCESS, queued := [], sent := (iovFlat iov).take rc }
  else
    let buflen := WB_SIZE wb
    if buflen + (len - rc) > 2 * max_wb_len then
      { rc := .BUFFER_OVERFLOW, queued := [], sent := (iovFlat iov).take rc }
    else
      { rc := .BUFFERED, queued := mkPtrSegs iov rc, sent := (iovFlat iov).take rc }

/-- `bsendfile` (http-server.c:329-373).  `fileData` abstracts the contents of
the file behind `fd`; `src` is the `sendfile` result, which never exceeds the
requested size nor the bytes the file provides past `offset`. -/
def bsendfile (wb : List WbSeg) (fileData : List Char) (offset size : Nat) (flag : Nat)
    (src : Nat) : BwriteOut :=
  let rc := if wb.isEmpty then min (min src size) ((fileData.drop offset).length) else 0
  if wb.isEmpty ∧ rc = size then
    { rc := .SUCCESS, queued := [], sent := (fileData.drop offset).take rc }
  else
    { rc := .BUFFERED,
      queued := [{ flags := (flag.land (FD_CLOSE.lor FD_KEEP)).lor MEM_FD,
                   payload := fileData, offset := offset + rc, len := size - rc }],
      sent := (fileData.drop offset).take rc }

/-- One head-segment write attempt of the drain loop in `write_to_client`
(http-server.c:1194-1241).  For both `MEM_PTR` (`write`) and `MEM_FD`
(`sendfile`) segments the code advances the offset by the reported count and
shrinks the length, releasing the segment from the head once its length
reaches zero; `src` is the syscall result, clamped to what the segment can
provide.  Returns the new chain and the bytes transmitted. -/
def drainStep (wb : List WbSeg) (src : Nat) : List WbSeg × List Char :=
  match wb with
  | [] => ([], [])
  | seg :: rest =>
    let rc := min src (segBytes seg).length
    let seg2 : WbSeg := { seg with offset := seg.offset + rc, len := seg.len - rc }
    if seg2.len = 0 then (rest, (segBytes seg).take rc)
    else (seg2 :: rest, (segBytes seg).take rc)

/-- Events on one connection's write chain: enqueues by handlers, drain
attempts by `write_to_client`, and retryable drain errors. -/
inductive WEvent where
  | bw (iov : List (List Char × Nat)) (wrc : Nat)
  | bsf (fileData : List Char) (offset size flag src : Nat)
  | drain (src : Nat)
  | drainErr
deriving Repr

/-- Trace state: the chain, all bytes transmitted on the socket so far, and
all bytes accepted into the output stream so far (transmitted directly or
queued). -/
structure WState where
  wb : List WbSeg
  sent : List Char
  accepted : List Char
deriving Repr, DecidableEq

def wStep (max_wb_len : Nat) (s : WState) : WEvent → WState
  | .bw iov wrc =>
    let o := bwrite max_wb_len s.wb iov wrc
    { wb := s.wb ++ o.queued, sent := s.sent ++ o.sent,
      accepted := s.accepted ++ o.sent ++ pendingBytes o.queued }
  | .bsf fileData offset size flag src =>
    let o := bsendfile s.wb fileData offset size flag src
    { wb := s.wb ++ o.queued, sent := s.sent ++ o.sent,
      accepted := s.accepted ++ o.sent ++ pendingBytes o.queued }
  | .drain src =>
    let o := drainStep s.wb src
    { wb := o.1, sent := s.sent ++ o.2, accepted := s.accepted }
  | .drainErr => s

def wInit : WState := ⟨[], [], []⟩

def wRun (max_wb_len : Nat) (es : List WEvent) : WState := es.foldl (wStep max_wb_len) wInit

/-- The FIFO invariant: transmitted bytes followed by the bytes still pending
in the chain are exactly the accepted output stream. -/
def fifoInv (s : WState) : Prop := s.sent ++ pendingBytes s.wb = s.accepted

/-- `version_enum`. -/
inductive VersionE where
  | V_UNKNOWN | V_10 | V_11
deriving Repr, DecidableEq

/-- `method_enum`. -/
inductive MethodE where
  | M_UNKNOWN | M_OPTIONS | M_GET | M_HEAD | M_POST | M_PUT | M_DELETE | M_TRACE | M_CONNECT
deriving Repr, DecidableEq

/-- `state_enum`. -/
inductive StateEnum where
  | STATE_NEW | STATE_HEAD | STATE_BODY | STATE_TAIL | STATE_READY | STATE_FINISH
deriving Repr, DecidableEq

-- request flags (`req_flags_enum`)
def REQ_CRLF : Nat := 1
def REQ_CHUNKED : Nat := 2
def REQ_CLOSE : Nat := 4
def REQ_SHUTDOWN : Nat := 8

/-- The fields of `struct req_struct` the embedded functions touch.  `data`
holds the buffer contents `data[0..len)` (so `c->len = data.length`; the code
keeps `data[len] = NUL`, which `cAt` models); the request pointers `body` and
`tail` become offsets into the buffer. -/
structure Req where
  data : List Char
  maxc : Nat
  wb : List WbSeg
  rl : Nat
  cl : Nat
  bodyOff : Nat
  tailOff : Nat
  state : StateEnum
  flags : Nat
  version : VersionE
  method : MethodE
deriving Repr, DecidableEq

/-- Result of the `read` system call as seen by `read_from_client`. -/
inductive ReadRes where
  | closed
  | again
  | fatal
  | bytes (bs : List Char)
deriving Repr, DecidableEq

/-- `read_from_client` (http-server.c:1144-1191): first the backpressure
guard, then the speculative buffer growth, the `read` (its outcome supplied
as `rr`), a call into the parser (`parse_data`, supplied as a function
parameter), and the choice of the next readiness interest. -/
def read_from_client (max_wb_len : Nat) (parse : Req → Retcode × Req) (c : Req)
    (rr : ReadRes) : Retcode × Req :=
  -- suspend reading temporarily if the write buffer is too full
  if WB_SIZE c.wb > max_wb_len then (.WRITE_DATA, c)
  else
    let c1 := if c.maxc - c.data.length - 1 < 128 then { c with maxc := c.maxc + 4096 } else c
    let rs :=
      match rr with
      | .closed => (Retcode.CLOSE_SOCKET, c1)
      | .again => (Retcode.READ_DATA, c1)
      | .fatal => (Retcode.CLOSE_SOCKET, c1)
      | .bytes bs => parse { c1 with data := c1.data ++ bs }
    if rs.1 = .CLOSE_SOCKET then
      (.WRITE_DATA, { rs.2 with flags := rs.2.flags.lor REQ_SHUTDOWN })
    else if ¬ rs.2.wb.isEmpty then (.READ_WRITE_DATA, rs.2)
    else (.READ_DATA, rs.2)

-- further `statuscode_enum` values
def HTTP_OK : Nat := 200
def HTTP_NOT_MODIFIED : Nat := 304
def HTTP_REDIRECT : Nat := 308
def HTTP_FORBIDDEN : Nat := 403
def HTTP_NOT_FOUND : Nat := 404
def HTTP_NOT_ALLOWED : Nat := 405
def HTTP_SERVER_ERROR : Nat := 500
def HTTP_SERVICE_UNAVAILABLE : Nat := 503

/-- The `responses` table (http-server-data.h:78-91), without its `{0}`
sentinel. -/
def responses : List (Nat × String) :=
  [(200, "OK"), (304, "Not modified"), (308, "Permanent redirect"),
   (400, "Bad request"), (403, "Forbidden"), (404, "Not found"),
   (405, "Method not allowed"), (413, "Payload too large"),
   (500, "Server error"), (501, "Not implemented"),
   (503, "Service unavailable")]

/-- `get_response` (http-server.c:153-161): scan the sorted table past the
codes below `code`; answer the message on an exact hit, else "Unknown" (the
scan stopping at the `{0}` sentinel corresponds to the dropWhile emptying the
list). -/
def get_response (code : Nat) : String :=
  match (responses.dropWhile (fun r => decide (r.1 < code))).head? with
  | some r => if r.1 = code then r.2 else "Unknown"
  | none => "Unknown"

/-- The header block `asprintf`ed by `write_response` from the format string
`"HTTP/1.%c %u %s\r\n%s%sContent-Length: %u\r\nDate: %s\r\n\r\n"`;
`dateStr` abstracts the `strftime`-formatted current time and `extra_headers`
is the server-global extra-headers string. -/
def responseHeader (version : VersionE) (code : Nat) (extra_headers : Option String)
    (headers : Option String) (bodylen : Nat) (dateStr : String) : String :=
  "HTTP/1." ++ (if version = VersionE.V_10 then "0" else "1") ++ " " ++ toString code ++ " "
    ++ get_response code ++ "\r\n" ++ (extra_headers.getD "") ++ (headers.getD "")
    ++ "Content-Length: " ++ toString bodylen ++ "\r\n" ++ "Date: " ++ dateStr ++ "\r\n\r\n"

/-- `write_response` (http-server.c:380-406) up to the iovec array it hands to
`bwrite`: body length auto-determined by `strlen` when a body is given with
`bodylen == 0`; the body vector is included only for a non-NULL body on a
non-HEAD request with a positive length, and carries the first `bodylen`
bytes at the body pointer. -/
def write_response_iov (version : VersionE) (method : MethodE) (extra_headers : Option String)
    (dateStr : String) (code : Nat) (headers : Option String) (body : Option (List Char))
    (bodylen : Nat) (flag : Nat) : List (List Char × Nat) :=
  let bodylen := if body.isSome ∧ bodylen = 0 then strlenC (body.getD []) else bodylen
  let hdr := responseHeader version code extra_headers headers bodylen dateStr
  if body.isSome ∧ method ≠ MethodE.M_HEAD ∧ bodylen > 0 then
    [(hdr.data, MEM_FREE), ((body.getD []).take bodylen, flag)]
  else [(hdr.data, MEM_FREE)]

/-- `write_response` proper: delegate the assembled iovec array to `bwrite`
on the connection's chain. -/
def write_response (max_wb_len : Nat) (extra_headers : Option String) (dateStr : String)
    (c : Req) (code : Nat) (headers : Option String) (body : Option (List Char))
    (bodylen : Nat) (flag : Nat) (wrc : Nat) : BwriteOut :=
  bwrite max_wb_len c.wb
    (write_response_iov c.version c.method extra_headers dateStr code headers body bodylen flag)
    wrc

/-- State of the in-place URL rewrite: the buffer (its length never changes;
it is the length of the input URL) and the log of indices written so far
(each `*q = c` of the C code records its index). -/
structure CleanSt where
  buf : List Char
  writes : List Nat
deriving Repr, DecidableEq

def bufWrite (s : CleanSt) (i : Nat) (c : Char) : CleanSt :=
  { buf := s.buf.set i c, writes := i :: s.writes }

/-- `for( ; (*q != '/') && (q > url); q-- );` — scan `q` down to the nearest
'/' currently in the buffer, stopping at the origin. -/
def cleanBack (buf : List Char) : Nat → Nat
  | 0 => 0
  | q+1 => if cAt buf (q+1) = '/' then q + 1 else cleanBack buf q

/-- The rewrite loop of `clean_url` with explicit reads (`cAt`) and writes.
`fuel` bounds the iteration count: the C loop advances `p` on every
iteration and only continues while `*p` is not NUL, so `buf.length + 1` fuel
always reaches the exit; exhausted fuel stops the loop where it stands. -/
def cleanLoop (fuel : Nat) (st : CleanSt) (p q : Nat) : CleanSt × Nat :=
  match fuel with
  | 0 => (st, q)
  | fuel + 1 =>
    if cAt st.buf p = NUL then (st, q)
    else if cAt st.buf p = '/' ∧ cAt st.buf (p+1) = '/' then
      cleanLoop fuel st (p+1) q
    else if cAt st.buf p = '/' ∧ cAt st.buf (p+1) = '.' ∧
        (cAt st.buf (p+2) = '/' ∨ cAt st.buf (p+2) = NUL) then
      cleanLoop fuel st (p+2) q
    else if cAt st.buf p = '/' ∧ cAt st.buf (p+1) = '.' ∧ cAt st.buf (p+2) = '.' ∧
        (cAt st.buf (p+3) = '/' ∨ cAt st.buf (p+3) = NUL) then
      cleanLoop fuel (bufWrite st (cleanBack st.buf q) NUL) (p+3) (cleanBack st.buf q)
    else
      cleanLoop fuel (bufWrite st q (cAt st.buf p)) (p+1) (q+1)

/-- `clean_url` (http-server.c:954-981): the special cases for a leading
"./" or "../", then the loop, then the final `*q = NUL`.  Returns the final
buffer state and the final write position. -/
def cleanRun (u : List Char) : CleanSt × Nat :=
  let p0 : Nat :=
    if cAt u 0 = '.' ∧ (cAt u 1 = '/' ∨ cAt u 1 = NUL) then 2
    else if cAt u 0 = '.' ∧ cAt u 1 = '.' ∧ (cAt u 2 = '/' ∨ cAt u 2 = NUL) then 3
    else 0
  let r := cleanLoop (u.length + 1) ⟨u, []⟩ p0 0
  (bufWrite r.1 r.2 NUL, r.2)

/-- The cleaned URL: the C string left in the buffer, up to the final write
position (the final NUL). -/
def clean_url (u : List Char) : List Char := (cleanRun u).1.buf.take (cleanRun u).2

/-- A read of byte `i` from an explicitly modeled memory region: defined only
while the index is inside the region.  Only `buf[strlen]` is guaranteed to be
the NUL terminator in C; what lies past the region is not modeled, so an
access there leaves the run undefined instead of being padded. -/
def memRead (buf : List Char) (i : Nat) : Option Char := buf[i]?

/-- A write of byte `c` at index `i` into the modeled memory region, logging
the index; defined only while the index is inside the region. -/
def memWrite (buf : List Char) (ws : List Nat) (i : Nat) (c : Char) :
    Option (List Char × List Nat) :=
  if i < buf.length then some (buf.set i c, ws ++ [i]) else none

/-- The rollback scan `for( ; (*q != '/') && (q > url); q-- );` of
`clean_url` over the modeled memory region, performing each byte read it
makes (the byte at `q` is read even when the `q > url` bound stops the
scan). -/
def cleanMBack (buf : List Char) : Nat → Option Nat
  | 0 => do
    let _ ← memRead buf 0
    some 0
  | q+1 => do
    let c ← memRead buf (q+1)
    if c = '/' then some (q+1) else cleanMBack buf q

/-- The rewrite loop `while (*p) ...` of `clean_url` (http-server.c:966-978)
over the modeled memory region.  Every byte the C code inspects or writes is
accessed through `memRead`/`memWrite`, with the reads of `p[1]`, `p[2]`,
`p[3]` performed exactly when the short-circuit evaluation of the three
conditions reaches them; an access outside the region leaves the run
undefined.  `fuel` bounds the iteration count: `p` advances every iteration,
so region length + 2 fuel always reaches the exit of a defined run. -/
def cleanMLoop : Nat → List Char → List Nat → Nat → Nat →
    Option (List Char × List Nat × Nat)
  | 0, _, _, _, _ => none
  | fuel+1, buf, ws, p, q => do
    let c0 ← memRead buf p
    if c0 = NUL then some (buf, ws, q)
    else if c0 = '/' then do
      let c1 ← memRead buf (p+1)
      if c1 = '/' then cleanMLoop fuel buf ws (p+1) q
      else if c1 = '.' then do
        let c2 ← memRead buf (p+2)
        if c2 = '/' ∨ c2 = NUL then cleanMLoop fuel buf ws (p+2) q
        else if c2 = '.' then do
          let c3 ← memRead buf (p+3)
          if c3 = '/' ∨ c3 = NUL then do
            let q2 ← cleanMBack buf q
            let (buf2, ws2) ← memWrite buf ws q2 NUL
            cleanMLoop fuel buf2 ws2 (p+3) q2
          else do
            let (buf2, ws2) ← memWrite buf ws q c0
            cleanMLoop fuel buf2 ws2 (p+1) (q+1)
        else do
          let (buf2, ws2) ← memWrite buf ws q c0
          cleanMLoop fuel buf2 ws2 (p+1) (q+1)
      else do
        let (buf2, ws2) ← memWrite buf ws q c0
        cleanMLoop fuel buf2 ws2 (p+1) (q+1)
    else do
      let (buf2, ws2) ← memWrite buf ws q c0
      cleanMLoop fuel buf2 ws2 (p+1) (q+1)

/-- The whole of `clean_url` (http-server.c:954-981) over an explicitly
modeled memory region `buf`: the URL string occupies the region up to its
first NUL, and the bytes after that NUL model whatever memory adjoins the
string (at the call site, http-server.c:1041, the URL points into the
request buffer and the rest of the parsed request follows its terminator).
The leading "./" and "../" special cases read `buf[1]`/`buf[2]` under the
same short-circuit discipline as the C conditions.  Returns the final
region, the log of all written indices (each `*q = c` and the final
`*q = NUL`), and the final write position; `none` if the run accesses
memory outside the modeled region. -/
def clean_url_mem (buf : List Char) : Option (List Char × List Nat × Nat) := do
  let c0 ← memRead buf 0
  let p0 ←
    if c0 = '.' then do
      let c1 ← memRead buf 1
      if c1 = '/' ∨ c1 = NUL then some 2
      else if c1 = '.' then do
        let c2 ← memRead buf 2
        if c2 = '/' ∨ c2 = NUL then some 3 else some 0
      else some 0
    else some 0
  let (buf1, ws1, q) ← cleanMLoop (buf.length + 2) buf [] p0 0
  let (buf2, ws2) ← memWrite buf1 ws1 q NUL
  some (buf2, ws2, q)

/-- `strstr` over the C string formed by a character list (the virtual NUL at
the end of the list terminates the haystack): index of the first occurrence
of the needle `sep`. -/
def cstrfindAux (sep : List Char) : List Char → Option Nat
  | [] => none
  | c :: t =>
    if sep.isPrefixOf (c :: t) then some 0
    else if c = NUL then none
    else (cstrfindAux sep t).map (· + 1)

/-- `strstr( data + i, sep )`, as an index into `data`. -/
def cstrfindFrom (data : List Char) (i : Nat) (sep : List Char) : Option Nat :=
  (cstrfindAux sep (data.drop i)).map (· + i)

def isHexDigitC (c : Char) : Bool :=
  (decide ('0' ≤ c) && decide (c ≤ '9')) || (decide ('a' ≤ c) && decide (c ≤ 'f'))
    || (decide ('A' ≤ c) && decide (c ≤ 'F'))

def hexVal (c : Char) : Nat :=
  if decide ('0' ≤ c) && decide (c ≤ '9') then c.toNat - 48
  else if decide ('a' ≤ c) && decide (c ≤ 'f') then c.toNat - 87
  else c.toNat - 55

def hexValOfDigits (ds : List Char) : Nat := ds.foldl (fun a c => a * 16 + hexVal c) 0

/-- `strtol(nptr, &endptr, 16)`: skip C whitespace, optional sign, optional
"0x"/"0X" prefix when a hex digit follows, then hex digits, clamped to `long`
range.  Returns the value and the remainder at `endptr` (the whole input when
no digits are consumed). -/
def strtol16 (v : List Char) : Int × List Char :=
  let w := v.dropWhile isSpaceC
  let neg : Bool := w.headD NUL = '-'
  let w2 := if w.headD NUL = '-' ∨ w.headD NUL = '+' then w.tail else w
  let w3 := if w2.headD NUL = '0' ∧ (w2.tail.headD NUL = 'x' ∨ w2.tail.headD NUL = 'X')
      ∧ isHexDigitC (w2.tail.tail.headD NUL) = true then w2.tail.tail else w2
  let ds := w3.takeWhile isHexDigitC
  if ds = [] then (0, v)
  else
    let n : Nat := hexValOfDigits ds
    let val : Int := if neg then -(n : Int) else (n : Int)
    (max (min val LONG_MAX) LONG_MIN, w3.drop ds.length)

/-- `memmove( data + dst, data + src, n )` within one buffer (used by
`read_body` with `dst ≤ src`, so the region semantics below coincide with the
C call). -/
def memmoveIn (data : List Char) (dst src n : Nat) : List Char :=
  data.take dst ++ ((data.drop src).take n ++ data.drop (dst + n))

/-- The line separator of the request: `"\r\n"` or `"\n"` according to the
`REQ_CRLF` flag (`1 + (c->flags & REQ_CRLF)` bytes in the C code). -/
def sepOf (crlf : Bool) : List Char := if crlf then ['\r', '\n'] else ['\n']

/-- The chunk loop of `read_body` (http-server.c:810-839).  `fuel` bounds the
iteration count (one unit per chunk; running out stops the loop as if more
data were needed). -/
def readChunks (fuel : Nat) (c : Req) : Retcode × Req :=
  match fuel with
  | 0 => (.READ_DATA, c)
  | fuel + 1 =>
    let sep := sepOf (testBit c.flags REQ_CRLF)
    match cstrfindFrom c.data c.rl sep with
    | none => (.READ_DATA, c)
    | some t =>
      let tmp := t + sep.length
      let r := strtol16 (c.data.drop c.rl)
      let chunklen : Nat := (r.1 % (2 ^ 32 : Int)).toNat
      let perrc := r.2.headD NUL
      if perrc ≠ '\n' ∧ perrc ≠ '\r' ∧ perrc ≠ ';' then
        (.CLOSE_SOCKET, c)     -- write_response(400) then CLOSE_SOCKET
      else if chunklen = 0 then
        (.SUCCESS, { c with rl := tmp, tailOff := tmp, state := .STATE_TAIL })
      else if c.data.length < tmp + chunklen + sep.length then
        (.READ_DATA, c)
      else
        readChunks fuel
          { c with data := memmoveIn c.data (c.bodyOff + c.cl) tmp chunklen,
                   cl := c.cl + chunklen,
                   rl := tmp + chunklen + sep.length }

/-- `read_body` (http-server.c:805-850): the chunked path runs the chunk
loop (ending in state TAIL); the plain path waits for `rl` bytes and moves to
READY. -/
def read_body (fuel : Nat) (c : Req) : Retcode × Req :=
  if testBit c.flags REQ_CHUNKED then readChunks fuel c
  else if c.data.length < c.rl then (.READ_DATA, c)
  else (.SUCCESS, { c with state := .STATE_READY })

/-- One chunk of a chunked body as it appears on the wire: the chunk-size
line (hex digits, then an optional extension), the separator, the payload and
its trailing separator. -/
structure Chunk where
  sizeStr : List Char
  ext : List Char
  payload : List Char
deriving Repr, DecidableEq

def encodeChunk (sep : List Char) (ch : Chunk) : List Char :=
  ch.sizeStr ++ ch.ext ++ sep ++ ch.payload ++ sep

/-- A well-formed chunk extension: absent, or ";…" free of CR, LF and NUL. -/
def extWF (e : List Char) : Prop :=
  e = [] ∨ (e.headD NUL = ';' ∧ ∀ c ∈ e, c ≠ '\r' ∧ c ≠ '\n' ∧ c ≠ NUL)

/-- A well-formed chunk: nonempty hex size naming the payload length (below
2^31, so within the ranges of the C integer types involved), nonempty payload
(a zero size would terminate the body), well-formed extension. -/
def chunkWF (ch : Chunk) : Prop :=
  ch.sizeStr ≠ [] ∧ (∀ c ∈ ch.sizeStr, isHexDigitC c = true) ∧
  hexValOfDigits ch.sizeStr = ch.payload.length ∧
  ch.payload ≠ [] ∧ ch.payload.length < 2 ^ 31 ∧ extWF ch.ext

/-- A well-formed final (zero-size) chunk line. -/
def lastWF (z0 zext : List Char) : Prop :=
  z0 ≠ [] ∧ (∀ c ∈ z0, isHexDigitC c = true) ∧ hexValOfDigits z0 = 0 ∧ extWF zext

instance extWF_dec (e : List Char) : Decidable (extWF e) := by
  unfold extWF; infer_instance

instance chunkWF_dec (ch : Chunk) : Decidable (chunkWF ch) := by
  unfold chunkWF extWF; infer_instance

instance lastWF_dec (z0 zext : List Char) : Decidable (lastWF z0 zext) := by
  unfold lastWF extWF; infer_instance

def chunksC1 : List Chunk :=
  [⟨("5").data, [], ("hello").data⟩, ⟨("6").data, [], (" world").data⟩]

def reqC1 : Req :=
  { data := ("XY5\r\nhello\r\n6\r\n world\r\n0\r\nT").data, maxc := 4096, wb := [],
    rl := 2, cl := 0, bodyOff := 2, tailOff := 0, state := .STATE_BODY, flags := 3,
    version := .V_11, method := .M_POST }

lemma strlenC_of_not_mem {s : List Char} (h : NUL ∉ s) : strlenC s = s.length := by
  unfold strlenC
  rw [List.takeWhile_eq_self_iff.mpr]
  intro c hc
  simp only [ne_eq, decide_eq_true_eq]
  exact fun hEq => h (hEq ▸ hc)

lemma strncmpEq_iff (p : List Char) : ∀ (u : List Char), NUL ∉ p → NUL ∉ u →
    (strncmpEq p.length p u = true ↔ ∃ t, u = p ++ t) := by
  induction p with
  | nil =>
    intro u _ _
    simp [strncmpEq]
  | cons c p ih =>
    intro u hp hu
    have hc : c ≠ NUL := fun h => hp (h ▸ List.mem_cons_self c p)
    cases u with
    | nil =>
      simp only [List.length_cons, strncmpEq, List.headD, List.tail]
      rw [if_neg]
      · constructor
        · intro h; cases h
        · rintro ⟨t, ht⟩
          exact absurd ht.symm (List.cons_ne_nil _ _)
      · exact fun h => hc h
    | cons d u =>
      have hd : d ≠ NUL := fun h => hu (h ▸ List.mem_cons_self d u)
      simp only [List.length_cons, strncmpEq, List.headD, List.tail]
      by_cases hcd : c = d
      · rw [if_pos hcd, if_neg hc]
        rw [ih u (fun h => hp (List.mem_cons_of_mem c h))
              (fun h => hu (List.mem_cons_of_mem d h))]
        constructor
        · rintro ⟨t, ht⟩; exact ⟨t, by simp [ht, hcd]⟩
        · rintro ⟨t, ht⟩
          refine ⟨t, ?_⟩
          simpa [hcd] using ht
      · rw [if_neg hcd]
        constructor
        · intro h; cases h
        · rintro ⟨t, ht⟩
          exfalso
          apply hcd
          have h2 := ht
          simp only [List.cons_append, List.cons.injEq] at h2
          exact h2.1.symm

lemma cAt_append_right (a t : List Char) : cAt (a ++ t) a.length = t.headD NUL := by
  unfold cAt
  induction a with
  | nil => cases t <;> simp [List.getD]
  | cons c a ih => simpa using ih

lemma headD_NUL_iff (t : List Char) (h : NUL ∉ t) : t.headD NUL = NUL ↔ t = [] := by
  cases t with
  | nil => simp
  | cons c t =>
    simp only [List.headD, List.cons_ne_nil, iff_false]
    exact fun hc => h (hc ▸ List.mem_cons_self c t)

lemma getLast_slash_iff (p : List Char) :
    (p.length > 0 ∧ cAt p (p.length - 1) = '/') ↔ p.getLast? = some '/' := by
  induction p using List.reverseRecOn with
  | nil => simp [cAt, List.getD]
  | append_singleton a c _ =>
    have h1 : cAt (a ++ [c]) a.length = c := by
      have := cAt_append_right a [c]
      simpa using this
    have h2 : (a ++ [c]).length - 1 = a.length := by simp
    simp [h2, h1, List.getLast?_concat]

/-- C6: in directory-prefix match mode a rule applies iff the request URL
starts with the pattern and, when the pattern ends in '/', the URL is
strictly longer, while otherwise the URL either equals the pattern or
continues with '/' right after the matched part. -/
theorem C6_directory_match (pattern url : List Char) (hp : NUL ∉ pattern) (hu : NUL ∉ url) :
    urlMatches CONT_DIR_MATCH pattern url = true ↔
      ((∃ t, url = pattern ++ t) ∧
        (if pattern.getLast? = some '/' then pattern.length < url.length
         else url = pattern ∨ url.getD pattern.length NUL = '/')) := by
  have hbit1 : testBit CONT_DIR_MATCH CONT_PREFIX_MATCH = false := by decide
  have hbit2 : testBit CONT_DIR_MATCH CONT_DIR_MATCH = true := by decide
  have hlen : strlenC pattern = pattern.length := strlenC_of_not_mem hp
  simp only [urlMatches, hbit1, hbit2, Bool.false_eq_true, if_false, if_true, hlen]
  by_cases hpre : strncmpEq pattern.length pattern url = true
  · obtain ⟨t, ht⟩ := (strncmpEq_iff pattern url hp hu).mp hpre
    have htn : NUL ∉ t := fun hmem => hu (ht ▸ List.mem_append_right pattern hmem)
    have hcat : cAt url pattern.length = t.headD NUL := by
      rw [ht]; exact cAt_append_right pattern t
    rw [if_neg (by simp [hpre])]
    simp only [← getLast_slash_iff]
    by_cases hsl : pattern.length > 0 ∧ cAt pattern (pattern.length - 1) = '/'
    · rw [if_pos hsl, if_pos hsl]
      constructor
      · intro hne
        refine ⟨⟨t, ht⟩, ?_⟩
        simp only [decide_not, Bool.not_eq_true', decide_eq_false_iff_not] at hne
        have htne : t ≠ [] := fun h0 => hne (by rw [hcat, h0]; rfl)
        have : 0 < t.length := List.length_pos.mpr htne
        rw [ht, List.length_append]
        omega
      · rintro ⟨_, hlt⟩
        simp only [decide_not, Bool.not_eq_true', decide_eq_false_iff_not]
        intro hNul
        rw [hcat, headD_NUL_iff t htn] at hNul
        rw [ht, hNul, List.append_nil] at hlt
        exact lt_irrefl _ hlt
    · rw [if_neg hsl, if_neg hsl]
      constructor
      · intro hcond
        refine ⟨⟨t, ht⟩, ?_⟩
        rw [decide_eq_true_eq] at hcond
        push_neg at hcond
        by_cases hNul : cAt url pattern.length = NUL
        · left
          rw [hcat, headD_NUL_iff t htn] at hNul
          rw [ht, hNul, List.append_nil]
        · right
          exact hcond hNul
      · rintro ⟨_, hor⟩
        rw [decide_eq_true_eq]
        push_neg
        intro hne
        rcases hor with heq | hslash
        · exfalso
          apply hne
          rw [hcat, headD_NUL_iff t htn]
          have h3 : pattern ++ t = pattern ++ [] := by
            rw [List.append_nil, ← ht, heq]
          exact List.append_cancel_left h3
        · exact hslash
  · rw [if_pos (by simpa using hpre)]
    constructor
    · intro h; cases h
    · rintro ⟨⟨t, ht⟩, _⟩
      exact absurd ((strncmpEq_iff pattern url hp hu).mpr ⟨t, ht⟩) hpre

/-- Witness for C6 at pattern "/d" (no trailing slash) and URL "/d/x". -/
theorem C6_directory_match_witness :
    urlMatches CONT_DIR_MATCH ['/', 'd'] ['/', 'd', '/', 'x'] = true :=
  (C6_directory_match ['/', 'd'] ['/', 'd', '/', 'x'] (by decide) (by decide)).mpr
    ⟨⟨['/', 'x'], rfl⟩, by decide⟩

/-! ### Accept-time admission (per-client connection cap), http-server.c:1529-1555 -/

/-- C7 counterexample: with `max_client_conn = 1`, the second concurrent
connection from the same IPv4 peer (the `max_client_conn + 1`-th) is accepted
into a free slot, not rejected with 503 as the claim states: the code rejects
only when the count of previously installed matching slots strictly exceeds
`max_client_conn`. -/
theorem C7_counterexample :
    acceptStep 1 [some peerA, none, none] peerA
      = .accepted 1 [some peerA, some peerA, none] := by decide

/-- C7 amended: a new connection is rejected with the canned 503 (slots
untouched) exactly when the count of existing connections from the same peer
exceeds `max_client_conn` (or no slot is free); hence up to
`max_client_conn + 1` concurrent connections per peer are admitted and the
`max_client_conn + 2`-th receives the 503.  The match compares the full
32-bit IPv4 or 128-bit IPv6 address. -/
theorem C7_per_client_cap (maxClientConn : Nat) (slots : List (Option SockAddr))
    (rip : SockAddr) :
    (countSameIp slots rip > maxClientConn →
        acceptStep maxClientConn slots rip = .reject canned503 slots) ∧
    (countSameIp slots rip ≤ maxClientConn → freeSlotIdx slots < slots.length →
        acceptStep maxClientConn slots rip
          = .accepted (freeSlotIdx slots) (slots.set (freeSlotIdx slots) (some rip))) ∧
    (∀ a b : SockAddr, b.family = AF_INET →
        (MATCH_IP_REQ a b = true ↔ a.addr4 = b.addr4)) ∧
    (∀ a b : SockAddr, b.family = AF_INET6 →
        (MATCH_IP_REQ a b = true ↔ a.addr6 = b.addr6)) := by
  refine ⟨?_, ?_, ?_, ?_⟩
  · intro hcount
    unfold acceptStep
    rw [if_pos (Or.inr hcount)]
  · intro hcount hfree
    unfold acceptStep
    rw [if_neg ?_]
    push_neg
    exact ⟨Nat.ne_of_lt hfree, hcount⟩
  · intro a b hb
    simp [MATCH_IP_REQ, hb]
  · intro a b hb
    have h2 : b.family ≠ AF_INET := by rw [hb]; decide
    simp only [MATCH_IP_REQ, hb]
    rw [if_neg (by decide : ¬(AF_INET6 = AF_INET))]
    simp

/-- Witness for C7: a reject at `max_client_conn = 0` with one matching
connection present, and an accept of a second connection at
`max_client_conn = 1`. -/
theorem C7_per_client_cap_witness :
    acceptStep 0 [some peerA] peerA = .reject canned503 [some peerA] ∧
    acceptStep 1 [some peerA, none] peerA = .accepted 1 [some peerA, some peerA] :=
  ⟨(C7_per_client_cap 0 [some peerA] peerA).1 (by decide),
   (C7_per_client_cap 1 [some peerA, none] peerA).2.1 (by decide) (by decide)⟩

/-! ### Header parsing: recognized headers of `read_head`, http-server.c:891-939 -/

/-- C5 counterexample: `Content-Length: 0` followed by `Content-Length: 5` is
a repetition with a different value, yet the request is accepted with
`c->cl = 5` instead of being rejected with 400, because the repeat check
`c->cl > 0 && cl != c->cl` treats a previously recorded 0 as unseen. -/
theorem C5_counterexample :
    processHeaderLines 65536 initHeadSt
        [("Content-Length: 0").data, ("Content-Length: 5").data]
      = .ok ⟨5, 5, false, none, false⟩ ∧
    processHeaderLines 65536 initHeadSt
        [("Content-Length: 0").data, ("Content-Length: 5").data]
      ≠ .resp HTTP_BAD_REQUEST := by
  constructor
  · rfl
  · decide

lemma strncaseEq_refl_append (a v : List Char) : strncaseEq a.length (a ++ v) a = true := by
  induction a with
  | nil => rfl
  | cons c a ih =>
    simp only [List.length_cons, List.cons_append, strncaseEq, List.headD, List.tail,
      eq_self_iff_true, if_true]
    by_cases h : lowerC c = NUL
    · rw [if_pos h]
    · rw [if_neg h]; exact ih

lemma isDigit10_not_space {c : Char} (h : isDigit10 c = true) : isSpaceC c = false := by
  cases hsp : isSpaceC c
  · rfl
  · exfalso
    simp only [isSpaceC, Bool.or_eq_true, decide_eq_true_eq] at hsp
    rcases hsp with ((((h1 | h1) | h1) | h1) | h1) | h1 <;> subst h1 <;>
      exact absurd h (by decide)

lemma isDigit10_ne_sign {c : Char} (h : isDigit10 c = true) : c ≠ '-' ∧ c ≠ '+' := by
  constructor <;> intro h1 <;> subst h1 <;> exact absurd h (by decide)

lemma strtol10_digits (ds : List Char) (hne : ds ≠ []) (hds : ∀ c ∈ ds, isDigit10 c = true) :
    strtol10 ds = (min (natOfDigits ds : Int) LONG_MAX, []) := by
  cases ds with
  | nil => exact absurd rfl hne
  | cons c t =>
    have hc := hds c (List.mem_cons_self c t)
    have hspf : isSpaceC c = false := isDigit10_not_space hc
    have hsgn := isDigit10_ne_sign hc
    have htw : List.takeWhile isDigit10 (c :: t) = c :: t :=
      List.takeWhile_eq_self_iff.mpr hds
    simp only [strtol10, List.dropWhile_cons, hspf, Bool.false_eq_true, if_false,
      List.headD, hsgn.1, hsgn.2, or_self, htw, hne, List.drop_length, natOfDigits]
    simp only [decide_eq_true_eq, hsgn.1, or_self, if_false]
    unfold LONG_MAX LONG_MIN
    simp only [Prod.mk.injEq]
    constructor
    · omega
    · trivial

/-- C5 amended: during header parsing a `Content-Length` value that `strtol`
cannot fully consume is rejected with 400; a well-formed decimal value is
rejected with 400 when it differs from a previously recorded nonzero value (a
previously recorded 0 counts as unseen), rejected with 413 when above
`max_req_len`, and otherwise recorded as the declared body length (also
advancing the expected request length). -/
theorem C5_content_length (max_req_len : Nat) (st : HeadSt) :
    (∀ v : List Char, (strtol10 v).2.headD NUL ≠ NUL →
        processHeaderLine max_req_len st (("Content-Length:").data ++ v)
          = .resp HTTP_BAD_REQUEST) ∧
    (∀ (ds : List Char) (n : Nat), ds ≠ [] → (∀ c ∈ ds, isDigit10 c = true) →
        natOfDigits ds = n → n < 2 ^ 31 →
        processHeaderLine max_req_len st (("Content-Length:").data ++ ds)
          = (if st.cl > 0 ∧ n ≠ st.cl then .resp HTTP_BAD_REQUEST
             else if n > max_req_len then .resp HTTP_TOO_LARGE
             else .ok { st with cl := n, rl := st.rl + n })) := by
  have h15 : (("Content-Length:").data).length = 15 := rfl
  constructor
  · intro v hv
    have hpre : strncaseEq 15 ((("Content-Length:").data) ++ v) (("Content-Length:").data)
        = true := strncaseEq_refl_append (("Content-Length:").data) v
    have hdrop : ((("Content-Length:").data) ++ v).drop 15 = v := by
      rw [← h15]; exact List.drop_left _ _
    simp only [processHeaderLine, hpre, if_true, hdrop]
    rw [if_pos (Or.inl hv)]
  · intro ds n hne hds hval hlt
    have hpre : strncaseEq 15 ((("Content-Length:").data) ++ ds) (("Content-Length:").data)
        = true := strncaseEq_refl_append (("Content-Length:").data) ds
    have hdrop : ((("Content-Length:").data) ++ ds).drop 15 = ds := by
      rw [← h15]; exact List.drop_left _ _
    simp only [processHeaderLine, hpre, if_true, hdrop]
    rw [strtol10_digits ds hne hds, hval]
    have hmin : min ((n : Int)) LONG_MAX = (n : Int) := by
      rw [min_eq_left]
      unfold LONG_MAX
      omega
    have hmod : (((n : Int)) % (2 ^ 32 : Int)).toNat = n := by
      rw [Int.emod_eq_of_lt (Int.natCast_nonneg _) (by exact_mod_cast by omega)]
      exact Int.toNat_natCast n
    simp only [hmin, hmod]
    have hcond : ((([] : List Char).headD NUL ≠ NUL ∨ n < 0 ∨ (st.cl > 0 ∧ n ≠ st.cl)))
        ↔ (st.cl > 0 ∧ n ≠ st.cl) := by simp
    by_cases h1 : st.cl > 0 ∧ n ≠ st.cl
    · rw [if_pos (hcond.mpr h1), if_pos h1]
    · rw [if_neg (fun hc => h1 (hcond.mp hc)), if_neg h1]

/-- Witness for C5: a malformed value `x` yields 400, and a plain `5` on a
fresh request is recorded as body length 5. -/
theorem C5_content_length_witness :
    processHeaderLine 65536 initHeadSt (("Content-Length:").data ++ ("x").data)
      = .resp HTTP_BAD_REQUEST ∧
    processHeaderLine 65536 initHeadSt (("Content-Length:").data ++ ("5").data)
      = .ok ⟨5, 5, false, none, false⟩ := by
  constructor
  · exact (C5_content_length 65536 initHeadSt).1 ("x").data (by decide)
  · have h := (C5_content_length 65536 initHeadSt).2 ("5").data 5 (by decide) (by decide)
      (by decide) (by decide)
    simpa using h

/-! ### Write-buffer chain: `WB_SIZE`, `bwrite`, `bsendfile`, `write_to_client` -/

lemma pendingBytes_append (a b : List WbSeg) :
    pendingBytes (a ++ b) = pendingBytes a ++ pendingBytes b := by
  simp [pendingBytes]

lemma take_append_pendingBytes (iov : List (List Char × Nat)) :
    ∀ rc, (iovFlat iov).take rc ++ pendingBytes (mkPtrSegs iov rc) = iovFlat iov := by
  induction iov with
  | nil => intro rc; simp [iovFlat, mkPtrSegs, pendingBytes]
  | cons vf rest ih =>
    intro rc
    obtain ⟨v, f⟩ := vf
    by_cases hle : v.length ≤ rc
    · have h1 : iovFlat ((v, f) :: rest) = v ++ iovFlat rest := by simp [iovFlat]
      simp only [mkPtrSegs, if_pos hle, h1, List.take_append_eq_append_take,
        List.take_of_length_le hle, List.append_assoc]
      rw [ih (rc - v.length)]
    · have h1 : iovFlat ((v, f) :: rest) = v ++ iovFlat rest := by simp [iovFlat]
      have h2 : rc - v.length = 0 := by omega
      have h3 : segBytes (mkSeg f v rc) = v.drop rc := by
        simp only [segBytes, mkSeg]
        rw [List.drop_zero, List.take_of_length_le (by simp)]
      simp only [mkPtrSegs, if_neg hle, h1, List.take_append_eq_append_take, h2,
        List.take_zero, List.append_nil, pendingBytes, List.map_cons, List.flatten_cons, h3]
      have h4 := ih 0
      simp only [List.take_zero, List.nil_append, pendingBytes] at h4
      rw [← List.append_assoc, List.take_append_drop, h4]

lemma segBytes_advance (seg : WbSeg) (rc : Nat) :
    segBytes { seg with offset := seg.offset + rc, len := seg.len - rc }
      = (segBytes seg).drop rc := by
  simp only [segBytes]
  rw [List.drop_take, ← List.drop_drop]

lemma bwrite_sent_of_ne (m : Nat) (wb : List WbSeg) (iov : List (List Char × Nat))
    (wrc : Nat) (h : wb.isEmpty = false) : (bwrite m wb iov wrc).sent = [] := by
  simp only [bwrite, h, Bool.false_eq_true, if_false, false_and]
  split <;> simp

lemma bsendfile_sent_of_ne (wb : List WbSeg) (fileData : List Char) (offset size flag src : Nat)
    (h : wb.isEmpty = false) : (bsendfile wb fileData offset size flag src).sent = [] := by
  simp only [bsendfile, h, Bool.false_eq_true, if_false, false_and]
  simp

lemma wStep_inv (m : Nat) (s : WState) (e : WEvent) (h : fifoInv s) : fifoInv (wStep m s e) := by
  cases e with
  | bw iov wrc =>
    show (s.sent ++ _) ++ pendingBytes (s.wb ++ _) = s.accepted ++ _ ++ _
    rw [pendingBytes_append]
    cases hwb : s.wb.isEmpty with
    | true =>
      have hnil : s.wb = [] := List.isEmpty_iff.mp hwb
      rw [← h, hnil]
      simp [pendingBytes]
    | false =>
      rw [bwrite_sent_of_ne m s.wb iov wrc hwb, ← h]
      simp
  | bsf fileData offset size flag src =>
    show (s.sent ++ _) ++ pendingBytes (s.wb ++ _) = s.accepted ++ _ ++ _
    rw [pendingBytes_append]
    cases hwb : s.wb.isEmpty with
    | true =>
      have hnil : s.wb = [] := List.isEmpty_iff.mp hwb
      rw [← h, hnil]
      simp [pendingBytes]
    | false =>
      rw [bsendfile_sent_of_ne s.wb fileData offset size flag src hwb, ← h]
      simp
  | drain src =>
    show (s.sent ++ (drainStep s.wb src).2) ++ pendingBytes (drainStep s.wb src).1 = s.accepted
    rw [← h, List.append_assoc]
    congr 1
    cases hwb : s.wb with
    | nil => simp [drainStep, pendingBytes]
    | cons seg rest =>
      simp only [drainStep]
      by_cases hz : seg.len - min src (segBytes seg).length = 0
      · rw [if_pos hz]
        simp only [pendingBytes, List.map_cons, List.flatten_cons]
        have hlen : (segBytes seg).length ≤ min src (segBytes seg).length := by
          have h1 : (segBytes seg).length ≤ seg.len := by
            simp [segBytes, List.length_take]
          omega
        rw [List.take_of_length_le hlen]
      · rw [if_neg hz]
        simp only [pendingBytes, List.map_cons, List.flatten_cons, segBytes_advance]
        rw [← List.append_assoc, List.take_append_drop]
  | drainErr => exact h

/-- C3: the write chain is FIFO.  Over any interleaving of `bwrite`/`bsendfile`
enqueues and `write_to_client` drain attempts (with arbitrary short writes and
retryable errors), the transmitted byte stream followed by the bytes still
pending in the chain equals the accepted output stream; in particular the
transmitted stream is always a prefix of it, so the k-th byte sent is the k-th
byte enqueued.  Segments are appended only at the tail (`wb ++ queued`) and
released only at the head (`drainStep`). -/
theorem C3_write_chain_fifo (max_wb_len : Nat) (es : List WEvent) :
    (wRun max_wb_len es).sent ++ pendingBytes (wRun max_wb_len es).wb
        = (wRun max_wb_len es).accepted ∧
    ∃ rest, (wRun max_wb_len es).accepted = (wRun max_wb_len es).sent ++ rest := by
  have hgen : ∀ (l : List WEvent) (s : WState), fifoInv s →
      fifoInv (l.foldl (wStep max_wb_len) s) := by
    intro l
    induction l with
    | nil => intro s hs; exact hs
    | cons e l ih => intro s hs; exact ih _ (wStep_inv max_wb_len s e hs)
  have h : fifoInv (wRun max_wb_len es) := hgen es wInit rfl
  exact ⟨h, ⟨pendingBytes (wRun max_wb_len es).wb, h.symm⟩⟩

/-! ### Connection state and `read_from_client` -/

lemma WB_SIZE_append_fd (wb : List WbSeg) (s : WbSeg) (h : testBit s.flags MEM_PTR = false) :
    WB_SIZE (wb ++ [s]) = WB_SIZE wb := by
  induction wb with
  | nil => simp [WB_SIZE, h]
  | cons x rest ih => simp [WB_SIZE, ih]

/-- C2: the two-threshold write discipline.  (1) `read_from_client` suspends
reading (returns `WRITE_DATA`, connection untouched, `read` result and parser
irrelevant) whenever the buffered pointer-segment byte count exceeds
`max_wb_len`.  (2) A `bwrite` whose unwritten bytes would push that count past
`2 * max_wb_len` returns `BUFFER_OVERFLOW` and appends no segment.  (3)
`bsendfile` never returns `BUFFER_OVERFLOW`, and (4) segments without
`MEM_PTR` (the file-descriptor segments) never count towards `WB_SIZE`. -/
theorem C2_write_thresholds (max_wb_len : Nat) :
    (∀ (parse : Req → Retcode × Req) (c : Req) (rr : ReadRes),
        WB_SIZE c.wb > max_wb_len →
        read_from_client max_wb_len parse c rr = (.WRITE_DATA, c)) ∧
    (∀ (wb : List WbSeg) (iov : List (List Char × Nat)) (wrc : Nat),
        WB_SIZE wb + (iovTotal iov - (if wb.isEmpty then min wrc (iovTotal iov) else 0))
            > 2 * max_wb_len →
        (bwrite max_wb_len wb iov wrc).rc = .BUFFER_OVERFLOW ∧
        (bwrite max_wb_len wb iov wrc).queued = []) ∧
    (∀ (wb : List WbSeg) (fileData : List Char) (offset size flag src : Nat),
        (bsendfile wb fileData offset size flag src).rc ≠ .BUFFER_OVERFLOW) ∧
    (∀ (wb : List WbSeg) (s : WbSeg), testBit s.flags MEM_PTR = false →
        WB_SIZE (wb ++ [s]) = WB_SIZE wb) := by
  refine ⟨?_, ?_, ?_, ?_⟩
  · intro parse c rr h
    unfold read_from_client
    rw [if_pos h]
  · intro wb iov wrc h
    unfold bwrite
    by_cases hfst : wb.isEmpty ∧ (if wb.isEmpty then min wrc (iovTotal iov) else 0) = iovTotal iov
    · exfalso
      obtain ⟨he, hrc⟩ := hfst
      have hnil : wb = [] := List.isEmpty_iff.mp he
      subst hnil
      rw [hrc] at h
      simp only [WB_SIZE] at h
      omega
    · rw [if_neg hfst, if_pos h]
      exact ⟨rfl, rfl⟩
  · intro wb fileData offset size flag src
    simp only [bsendfile]
    split <;> simp <;> split <;> simp
  · exact WB_SIZE_append_fd

/-- Witness for C2: a one-byte pointer segment suspends reading at
`max_wb_len = 0`; a two-byte `bwrite` on the empty chain with a failed direct
write overflows at `max_wb_len = 0`. -/
theorem C2_write_thresholds_witness :
    read_from_client 0 (fun c => (.SUCCESS, c)) ⟨[], 4096, [⟨MEM_PTR, ['a'], 0, 1⟩],
        0, 0, 0, 0, .STATE_NEW, 0, .V_11, .M_GET⟩ .closed
      = (.WRITE_DATA, ⟨[], 4096, [⟨MEM_PTR, ['a'], 0, 1⟩], 0, 0, 0, 0, .STATE_NEW, 0,
          .V_11, .M_GET⟩) ∧
    (bwrite 0 [] [(['a', 'b'], MEM_KEEP)] 0).rc = .BUFFER_OVERFLOW ∧
    (bwrite 0 [] [(['a', 'b'], MEM_KEEP)] 0).queued = [] ∧
    (bsendfile [] ['x'] 0 1 FD_CLOSE 0).rc ≠ .BUFFER_OVERFLOW ∧
    WB_SIZE ([⟨MEM_PTR, ['a'], 0, 1⟩] ++ [⟨MEM_FD, ['x', 'y'], 0, 2⟩])
      = WB_SIZE [⟨MEM_PTR, ['a'], 0, 1⟩] := by
  refine ⟨?_, ?_, ?_, ?_, ?_⟩
  · exact (C2_write_thresholds 0).1 (fun c => (.SUCCESS, c)) _ .closed (by decide)
  · exact ((C2_write_thresholds 0).2.1 [] [(['a', 'b'], MEM_KEEP)] 0 (by decide)).1
  · exact ((C2_write_thresholds 0).2.1 [] [(['a', 'b'], MEM_KEEP)] 0 (by decide)).2
  · exact (C2_write_thresholds 0).2.2.1 [] ['x'] 0 1 FD_CLOSE 0
  · exact (C2_write_thresholds 0).2.2.2 [⟨MEM_PTR, ['a'], 0, 1⟩] ⟨MEM_FD, ['x', 'y'], 0, 2⟩
      (by decide)

/-! ### `write_response` (http-server.c:380-406) -/

/-- C4: with a non-NULL body of length N > 0 the emitted bytes are the header
block followed by exactly the N body bytes when the method is not HEAD, and
by zero body bytes when it is HEAD; either way the header block contains
`Content-Length: N`. -/
theorem C4_head_keeps_content_length (version : VersionE) (method : MethodE)
    (extra_headers headers : Option String) (dateStr : String) (code : Nat)
    (b : List Char) (N : Nat) (flag : Nat) (hN : 0 < N) (hb : b.length = N) :
    iovFlat (write_response_iov version method extra_headers dateStr code headers (some b)
        N flag)
      = (responseHeader version code extra_headers headers N dateStr).data
        ++ (if method = MethodE.M_HEAD then [] else b) ∧
    (∃ pre post, (responseHeader version code extra_headers headers N dateStr).data
        = pre ++ ("Content-Length: " ++ toString N ++ "\r\n").data ++ post) ∧
    (if method = MethodE.M_HEAD then ([] : List Char) else b).length
      = (if method = MethodE.M_HEAD then 0 else N) := by
  refine ⟨?_, ?_, ?_⟩
  · have hbl : ((some b).isSome ∧ N = 0) = False := by simp; omega
    by_cases hm : method = MethodE.M_HEAD
    · simp only [write_response_iov, hbl, if_false, hm]
      simp [iovFlat]
    · simp only [write_response_iov, hbl, if_false]
      rw [if_pos ⟨by simp, hm, hN⟩]
      simp only [iovFlat, List.map_cons, List.map_nil, List.flatten_cons, List.flatten_nil,
        List.flatten, Option.getD_some]
      rw [if_neg hm, ← hb, List.take_length]
      simp
  · refine ⟨("HTTP/1." ++ (if version = VersionE.V_10 then "0" else "1") ++ " "
        ++ toString code ++ " " ++ get_response code ++ "\r\n" ++ (extra_headers.getD "")
        ++ (headers.getD "")).data,
      ("Date: " ++ dateStr ++ "\r\n\r\n").data, ?_⟩
    simp [responseHeader, List.append_assoc]
  · by_cases hm : method = MethodE.M_HEAD
    · simp [hm]
    · simp [hm, hb]

/-- Witness for C4 at a one-byte body, once under GET and once under HEAD. -/
theorem C4_head_keeps_content_length_witness :
    (iovFlat (write_response_iov .V_11 .M_GET none "D" 200 none (some ['x']) 1 MEM_KEEP)
      = (responseHeader .V_11 200 none none 1 "D").data ++ ['x'] ∧
     (∃ pre post, (responseHeader .V_11 200 none none 1 "D").data
        = pre ++ ("Content-Length: " ++ toString 1 ++ "\r\n").data ++ post)) ∧
    (iovFlat (write_response_iov .V_11 .M_HEAD none "D" 200 none (some ['x']) 1 MEM_KEEP)
      = (responseHeader .V_11 200 none none 1 "D").data) := by
  constructor
  · have h := C4_head_keeps_content_length .V_11 .M_GET none none "D" 200 ['x'] 1 MEM_KEEP
      (by decide) (by decide)
    exact ⟨by simpa using h.1, h.2.1⟩
  · have h := C4_head_keeps_content_length .V_11 .M_HEAD none none "D" 200 ['x'] 1 MEM_KEEP
      (by decide) (by decide)
    simpa using h.1

/-- C9: with a non-NULL body and `bodylen == 0` the body length is
auto-determined as `strlen(body)`: the header block states
`Content-Length: strlen(body)` and, when the method is not HEAD and the
strlen is nonzero, exactly those bytes follow (nothing follows for the empty
string, whose Content-Length is 0); an explicit nonzero `bodylen` is used as
given. -/
theorem C9_auto_body_length (version : VersionE) (method : MethodE)
    (extra_headers headers : Option String) (dateStr : String) (code : Nat)
    (b : List Char) (flag : Nat) :
    (iovFlat (write_response_iov version method extra_headers dateStr code headers (some b)
        0 flag)
      = (responseHeader version code extra_headers headers (strlenC b) dateStr).data
        ++ (if method = MethodE.M_HEAD ∨ strlenC b = 0 then []
            else b.take (strlenC b))) ∧
    (∃ pre post, (responseHeader version code extra_headers headers (strlenC b) dateStr).data
        = pre ++ ("Content-Length: " ++ toString (strlenC b) ++ "\r\n").data ++ post) ∧
    (NUL ∉ b → b.take (strlenC b) = b) ∧
    (b = [] → iovFlat (write_response_iov version method extra_headers dateStr code headers
        (some b) 0 flag)
      = (responseHeader version code extra_headers headers 0 dateStr).data) ∧
    (∀ bl : Nat, bl ≠ 0 →
      iovFlat (write_response_iov version method extra_headers dateStr code headers (some b)
          bl flag)
        = (responseHeader version code extra_headers headers bl dateStr).data
          ++ (if method = MethodE.M_HEAD then [] else b.take bl)) := by
  refine ⟨?_, ?_, ?_, ?_, ?_⟩
  · by_cases hm : method = MethodE.M_HEAD
    · simp [write_response_iov, hm, iovFlat]
    · by_cases h0 : strlenC b = 0
      · simp [write_response_iov, hm, h0, iovFlat]
      · simp [write_response_iov, hm, h0, Nat.pos_of_ne_zero h0, iovFlat]
  · refine ⟨("HTTP/1." ++ (if version = VersionE.V_10 then "0" else "1") ++ " "
        ++ toString code ++ " " ++ get_response code ++ "\r\n" ++ (extra_headers.getD "")
        ++ (headers.getD "")).data,
      ("Date: " ++ dateStr ++ "\r\n\r\n").data, ?_⟩
    simp [responseHeader, List.append_assoc]
  · intro hb
    rw [strlenC_of_not_mem hb, List.take_length]
  · intro hb
    subst hb
    simp [write_response_iov, iovFlat, strlenC]
  · intro bl hbl
    by_cases hm : method = MethodE.M_HEAD
    · simp [write_response_iov, hm, hbl, iovFlat]
    · simp [write_response_iov, hm, hbl, Nat.pos_of_ne_zero hbl, iovFlat]

/-- Witness for C9: auto-detected two-byte body, empty body, and an explicit
one-byte length on a two-byte body. -/
theorem C9_auto_body_length_witness :
    iovFlat (write_response_iov .V_11 .M_GET none "D" 200 none (some ['h', 'i']) 0 MEM_KEEP)
      = (responseHeader .V_11 200 none none 2 "D").data ++ ['h', 'i'] ∧
    (['h', 'i'] : List Char).take (strlenC ['h', 'i']) = ['h', 'i'] ∧
    iovFlat (write_response_iov .V_11 .M_GET none "D" 200 none (some ([] : List Char)) 0
        MEM_KEEP)
      = (responseHeader .V_11 200 none none 0 "D").data ∧
    iovFlat (write_response_iov .V_11 .M_GET none "D" 200 none (some ['h', 'i']) 1 MEM_KEEP)
      = (responseHeader .V_11 200 none none 1 "D").data ++ ['h'] := by
  have h := C9_auto_body_length .V_11 .M_GET none none "D" 200 ['h', 'i'] MEM_KEEP
  have h0 := C9_auto_body_length .V_11 .M_GET none none "D" 200 ([] : List Char) MEM_KEEP
  refine ⟨by simpa using h.1, h.2.2.1 (by decide), h0.2.2.2.1 rfl, ?_⟩
  have h5 := h.2.2.2.2 1 (by decide)
  simpa using h5

/-! ### `clean_url` (http-server.c:954-981) -/

/-- C8 (code bug): URL canonicalization is not idempotent.  One application
to "./." yields "." and a second application yields "", contradicting the
specified invariant `clean(clean(u)) == clean(u)`: the leading-"./" special
case composes with itself non-idempotently (more broadly, the `..` rollback
reads the stale byte at the next write slot, so e.g. "/a/../b" cleans to
"/a/b" instead of "/b"). -/
theorem C8_clean_url_not_idempotent :
    clean_url (clean_url ['.', '/', '.']) ≠ clean_url ['.', '/', '.'] ∧
    clean_url ['.', '/', '.'] = ['.'] ∧
    clean_url ['.'] = ([] : List Char) := by
  refine ⟨?_, ?_, ?_⟩ <;> decide

/-- C10: the in-place rewrite of `clean_url` is NOT confined to the original
string's extent.  On the one-character URL "." (modeled region: the string
".", its NUL terminator, then the adjacent bytes 'H', 'T', NUL standing for
the request text that follows the URL in the request buffer at the call
site), the leading special case takes `p += 2` because `p[1]` is the
terminator, advancing `p` one byte PAST it; the loop then reads and copies
the adjacent bytes over the string and the final `*q = NUL` lands at index
2, outside the extent {0, 1} of "." and its terminator (`strlenC` region
= 1), and the resulting string "HT" is strictly longer than the input
".".  Both conjuncts of the claimed safety property are false of the
program. -/
theorem C10_clean_url_oob :
    clean_url_mem ['.', NUL, 'H', 'T', NUL] =
      some (['H', 'T', NUL, 'T', NUL], [0, 1, 2], 2) ∧
    strlenC ['.', NUL, 'H', 'T', NUL] = 1 ∧
    (∃ i ∈ [0, 1, 2], strlenC ['.', NUL, 'H', 'T', NUL] < i) ∧
    strlenC ['.', NUL, 'H', 'T', NUL] < strlenC ['H', 'T', NUL, 'T', NUL] := by
  refine ⟨by decide, by decide, ⟨2, by decide, by decide⟩, by decide⟩

/-! ### `read_body`: chunked transfer decoding (http-server.c:805-850) -/

lemma isHexDigitC_props {c : Char} (hc : isHexDigitC c = true) :
    isSpaceC c = false ∧ c ≠ '-' ∧ c ≠ '+' ∧ c ≠ '\r' ∧ c ≠ '\n' ∧ c ≠ NUL ∧
    c ≠ 'x' ∧ c ≠ 'X' ∧ c ≠ ';' := by
  refine ⟨?_, ?_, ?_, ?_, ?_, ?_, ?_, ?_, ?_⟩
  · cases hsp : isSpaceC c
    · rfl
    · exfalso
      simp only [isSpaceC, Bool.or_eq_true, decide_eq_true_eq] at hsp
      rcases hsp with ((((h1 | h1) | h1) | h1) | h1) | h1 <;> subst h1 <;>
        exact absurd hc (by decide)
  all_goals intro h1
  all_goals subst h1
  all_goals exact absurd hc (by decide)

lemma takeWhile_append_all {p : Char → Bool} {A B : List Char} (hA : ∀ c ∈ A, p c = true)
    (hB : B.takeWhile p = []) : (A ++ B).takeWhile p = A := by
  induction A with
  | nil => simpa using hB
  | cons a A ih =>
    rw [List.cons_append, List.takeWhile_cons, if_pos (hA a (List.mem_cons_self a A))]
    rw [ih (fun c hc => hA c (List.mem_cons_of_mem a hc))]

lemma isPrefixOf_append_self (l t : List Char) : l.isPrefixOf (l ++ t) = true := by
  induction l with
  | nil => simp [List.isPrefixOf]
  | cons a l ih => simp [List.isPrefixOf, ih]

lemma cstrfindAux_append (sep : List Char) (hsep : sep ≠ []) :
    ∀ (A B : List Char), (∀ ch ∈ A, ch ≠ sep.headD NUL ∧ ch ≠ NUL) →
    cstrfindAux sep (A ++ (sep ++ B)) = some A.length := by
  intro A
  induction A with
  | nil =>
    intro B _
    cases sep with
    | nil => exact absurd rfl hsep
    | cons s st =>
      have hpre := isPrefixOf_append_self (s :: st) B
      simp only [List.cons_append] at hpre
      simp only [List.nil_append, List.length_nil, List.cons_append, cstrfindAux,
        List.append_eq]
      rw [if_pos hpre]
  | cons a A ih =>
    intro B hA
    have ha := hA a (List.mem_cons_self a A)
    cases sep with
    | nil => exact absurd rfl hsep
    | cons s st =>
      have hsa : (s == a) = false := by
        apply beq_eq_false_iff_ne.mpr
        intro h
        exact ha.1 (by simpa [List.headD] using h.symm)
      have hne : (s :: st).isPrefixOf (a :: (A ++ (s :: (st ++ B)))) = false := by
        simp [List.isPrefixOf, hsa]
      have ih2 := ih B (fun c hc => hA c (List.mem_cons_of_mem a hc))
      simp only [List.cons_append] at ih2
      simp only [List.cons_append, cstrfindAux, List.append_eq, hne, Bool.false_eq_true,
        if_false]
      rw [if_neg ha.2, ih2]
      rfl

lemma strtol16_digits (ds tail : List Char) (hne : ds ≠ [])
    (hds : ∀ c ∈ ds, isHexDigitC c = true)
    (ht1 : isHexDigitC (tail.headD NUL) = false)
    (ht2 : tail.headD NUL ≠ 'x') (ht3 : tail.headD NUL ≠ 'X') :
    strtol16 (ds ++ tail) = (min ((hexValOfDigits ds : Int)) LONG_MAX, tail) := by
  cases ds with
  | nil => exact absurd rfl hne
  | cons c t =>
    have hc := hds c (List.mem_cons_self c t)
    have hp := isHexDigitC_props hc
    have hw : List.dropWhile isSpaceC (c :: (t ++ tail)) = c :: (t ++ tail) := by
      rw [List.dropWhile_cons, if_neg (by simp [hp.1])]
    have hBtw : tail.takeWhile isHexDigitC = [] := by
      cases tail with
      | nil => rfl
      | cons x xs =>
        simp only [List.headD] at ht1
        rw [List.takeWhile_cons, if_neg (by simp [ht1])]
    have htw : List.takeWhile isHexDigitC ((c :: t) ++ tail) = c :: t :=
      takeWhile_append_all hds hBtw
    have hxcond : ¬(c = '0' ∧ ((t ++ tail).headD NUL = 'x' ∨ (t ++ tail).headD NUL = 'X')
        ∧ isHexDigitC ((t ++ tail).tail.headD NUL) = true) := by
      rintro ⟨-, hx, -⟩
      cases t with
      | nil =>
        simp only [List.nil_append] at hx
        rcases hx with hx | hx
        exacts [ht2 hx, ht3 hx]
      | cons d t2 =>
        have hd := isHexDigitC_props (hds d (by simp))
        simp only [List.cons_append, List.headD] at hx
        rcases hx with hx | hx
        exacts [hd.2.2.2.2.2.2.1 hx, hd.2.2.2.2.2.2.2.1 hx]
    have hsign : (if c = '-' ∨ c = '+' then t ++ tail else c :: (t ++ tail))
        = c :: (t ++ tail) := by
      rw [if_neg]
      push_neg
      exact ⟨hp.2.1, hp.2.2.1⟩
    have htw2 : List.takeWhile isHexDigitC (c :: (t ++ tail)) = c :: t := by
      rw [← List.cons_append]
      exact htw
    have hdrop : List.drop (c :: t).length (c :: (t ++ tail)) = tail := by
      have hd := List.drop_left (c :: t) tail
      rw [← List.cons_append]
      exact hd
    have hnegf : (decide (c = '-')) = false := by simp [hp.2.1]
    simp only [strtol16, List.cons_append, hw, List.headD_cons, List.tail_cons]
    rw [hsign]
    simp only [List.headD_cons, List.tail_cons]
    rw [if_neg hxcond, htw2, if_neg (List.cons_ne_nil c t), hdrop, hnegf]
    simp only [Bool.false_eq_true, if_false]
    have hmax : max (min ((hexValOfDigits (c :: t) : Int)) LONG_MAX) LONG_MIN
        = min ((hexValOfDigits (c :: t) : Int)) LONG_MAX := by
      have h0 : (0 : Int) ≤ (hexValOfDigits (c :: t) : Int) := Int.natCast_nonneg _
      unfold LONG_MAX LONG_MIN
      omega
    rw [hmax]

lemma memmoveIn_length (data : List Char) (dst src n : Nat) (h1 : dst + n ≤ data.length)
    (h2 : src + n ≤ data.length) : (memmoveIn data dst src n).length = data.length := by
  simp only [memmoveIn, List.length_append, List.length_take, List.length_drop]
  omega

lemma memmoveIn_drop_ge (data : List Char) (dst src n k : Nat) (hk : dst + n ≤ k)
    (h1 : dst + n ≤ data.length) (h2 : src + n ≤ data.length) :
    (memmoveIn data dst src n).drop k = data.drop k := by
  have hl1 : (List.take dst data).length = dst := by
    rw [List.length_take]; omega
  have hl2 : ((List.drop src data).take n).length = n := by
    rw [List.length_take, List.length_drop]; omega
  simp only [memmoveIn]
  rw [List.drop_append_eq_append_drop, List.drop_append_eq_append_drop, hl1, hl2]
  rw [List.drop_eq_nil_of_le (by rw [hl1]; omega)]
  rw [List.drop_eq_nil_of_le (by rw [hl2]; omega)]
  simp only [List.nil_append, List.drop_drop]
  congr 1
  omega

lemma memmoveIn_segment (data : List Char) (dst src n b : Nat) (hb : b ≤ dst)
    (h1 : dst + n ≤ data.length) (h2 : src + n ≤ data.length) :
    ((memmoveIn data dst src n).drop b).take (dst - b + n)
      = ((data.drop b).take (dst - b)) ++ (data.drop src).take n := by
  have hl1 : (List.take dst data).length = dst := by
    rw [List.length_take]; omega
  have hl2 : ((List.drop src data).take n).length = n := by
    rw [List.length_take, List.length_drop]; omega
  simp only [memmoveIn]
  rw [List.drop_append_eq_append_drop, hl1]
  rw [Nat.sub_eq_zero_of_le hb, List.drop_zero]
  rw [List.take_append_eq_append_take]
  have hlen3 : ((List.take dst data).drop b).length = dst - b := by
    rw [List.length_drop, hl1]
  rw [List.take_of_length_le (by rw [hlen3]; omega)]
  rw [hlen3]
  have hkk : dst - b + n - (dst - b) = n := by omega
  rw [hkk]
  rw [List.take_append_eq_append_take, hl2]
  rw [List.take_of_length_le (le_of_eq hl2)]
  rw [Nat.sub_self, List.take_zero, List.append_nil]
  rw [List.drop_take]

lemma sepOf_ne_nil (crlf : Bool) : sepOf crlf ≠ [] := by cases crlf <;> simp [sepOf]

lemma sepOf_headD (crlf : Bool) :
    (sepOf crlf).headD NUL = '\r' ∨ (sepOf crlf).headD NUL = '\n' := by
  cases crlf <;> simp [sepOf]

/-- The characters of a chunk-size line (hex digits then extension) can start
neither the separator nor the terminator, so `strstr` skips past them. -/
lemma lineA_ok (crlf : Bool) (sz e : List Char) (hsz : ∀ c ∈ sz, isHexDigitC c = true)
    (he : extWF e) :
    ∀ ch ∈ sz ++ e, ch ≠ (sepOf crlf).headD NUL ∧ ch ≠ NUL := by
  intro ch hch
  have hch2 : ch ≠ '\r' ∧ ch ≠ '\n' ∧ ch ≠ NUL := by
    rcases List.mem_append.mp hch with h | h
    · have hp := isHexDigitC_props (hsz ch h)
      exact ⟨hp.2.2.2.1, hp.2.2.2.2.1, hp.2.2.2.2.2.1⟩
    · rcases he with he | ⟨-, he⟩
      · subst he; cases h
      · exact he ch h
  rcases sepOf_headD crlf with h | h <;> rw [h]
  · exact ⟨hch2.1, hch2.2.2⟩
  · exact ⟨hch2.2.1, hch2.2.2⟩

/-- What `strtol` finds right after the digits of a chunk-size line: the
extension's ';' or the separator — never a hex digit, "x"/"X", and always one
of the three characters the 400-check of `read_body` admits. -/
lemma ext_sep_head (crlf : Bool) (e R : List Char) (he : extWF e) :
    isHexDigitC ((e ++ (sepOf crlf ++ R)).headD NUL) = false ∧
    (e ++ (sepOf crlf ++ R)).headD NUL ≠ 'x' ∧
    (e ++ (sepOf crlf ++ R)).headD NUL ≠ 'X' ∧
    ((e ++ (sepOf crlf ++ R)).headD NUL = '\n' ∨ (e ++ (sepOf crlf ++ R)).headD NUL = '\r'
      ∨ (e ++ (sepOf crlf ++ R)).headD NUL = ';') := by
  rcases he with he | ⟨hh, -⟩
  · subst he
    cases crlf <;>
      simp only [sepOf, Bool.false_eq_true, if_false, if_true, List.nil_append,
        List.cons_append, List.headD_cons] <;>
      exact ⟨by decide, by decide, by decide, by simp⟩
  · cases e with
    | nil => exact absurd hh (by decide)
    | cons e0 e2 =>
      simp only [List.headD_cons] at hh
      subst hh
      simp only [List.cons_append, List.headD_cons]
      exact ⟨by decide, by decide, by decide, by simp⟩

lemma drop_append_left (X Y : List Char) (k : Nat) (hk : k = X.length) :
    (X ++ Y).drop k = Y := by
  subst hk
  exact List.drop_left X Y

lemma take_append_left (X Y : List Char) (k : Nat) (hk : k = X.length) :
    (X ++ Y).take k = X := by
  subst hk
  exact List.take_left X Y

/-- The chunk loop on a well-formed sequence of chunks followed by the final
zero-size line: it succeeds with fuel one past the chunk count, lands in
state TAIL with `tail` pointing right past the zero line, adds the payload
lengths to `cl`, and extends the contiguous body region by the concatenated
payloads. -/
lemma readChunks_spec (crlf : Bool) : ∀ (chunks : List Chunk) (c : Req)
    (D z0 zext rest : List Char),
    c.data = D ++ ((chunks.map (encodeChunk (sepOf crlf))).flatten
        ++ (z0 ++ (zext ++ (sepOf crlf ++ rest)))) →
    c.rl = D.length →
    c.bodyOff + c.cl ≤ c.rl →
    testBit c.flags REQ_CRLF = crlf →
    (∀ ch ∈ chunks, chunkWF ch) →
    lastWF z0 zext →
    ∃ c' : Req,
      readChunks (chunks.length + 1) c = (.SUCCESS, c') ∧
      c'.state = .STATE_TAIL ∧
      c'.cl = c.cl + (chunks.map (fun ch => ch.payload.length)).sum ∧
      c'.bodyOff = c.bodyOff ∧
      c'.tailOff = c'.rl ∧
      c'.rl = c.rl + ((chunks.map (encodeChunk (sepOf crlf))).flatten).length
          + z0.length + zext.length + (sepOf crlf).length ∧
      c'.data.length = c.data.length ∧
      (c'.data.drop c.bodyOff).take c'.cl
        = (c.data.drop c.bodyOff).take c.cl ++ (chunks.map Chunk.payload).flatten := by
  intro chunks
  induction chunks with
  | nil =>
    intro c D z0 zext rest hdata hrl hle hflags hwf hz
    obtain ⟨hz1, hz2, hz3, hz4⟩ := hz
    have hdrop : c.data.drop c.rl = (z0 ++ zext) ++ (sepOf crlf ++ rest) := by
      rw [hdata, hrl, drop_append_left _ _ _ rfl]
      simp [List.append_assoc]
    have hfind : cstrfindFrom c.data c.rl (sepOf crlf)
        = some (c.rl + (z0 ++ zext).length) := by
      unfold cstrfindFrom
      rw [hdrop, cstrfindAux_append (sepOf crlf) (sepOf_ne_nil crlf) (z0 ++ zext) rest
        (lineA_ok crlf z0 zext hz2 hz4)]
      simp [Nat.add_comm]
    have hesh := ext_sep_head crlf zext rest hz4
    have hstr : strtol16 (c.data.drop c.rl)
        = (min ((hexValOfDigits z0 : Int)) LONG_MAX, zext ++ (sepOf crlf ++ rest)) := by
      rw [hdrop, List.append_assoc]
      exact strtol16_digits z0 (zext ++ (sepOf crlf ++ rest)) hz1 hz2 hesh.1 hesh.2.1
        hesh.2.2.1
    have hval : (min ((hexValOfDigits z0 : Int)) LONG_MAX) = 0 := by
      rw [hz3]
      have : (0 : Int) ≤ LONG_MAX := by unfold LONG_MAX; omega
      omega
    simp only [List.length_nil, readChunks, hflags]
    rw [hfind]
    simp only [hstr, hval]
    rw [if_neg ?hperr]
    case hperr =>
      push_neg
      intro h1 h2
      rcases hesh.2.2.2 with h | h | h
      · exact absurd h h1
      · exact absurd h h2
      · exact h
    rw [if_pos (by simp)]
    refine ⟨_, rfl, rfl, by simp, rfl, rfl, ?_, rfl, by simp⟩
    simp only [List.map_nil, List.flatten_nil, List.length_nil, Nat.add_zero]
    have : (z0 ++ zext).length = z0.length + zext.length := List.length_append z0 zext
    omega
  | cons ch chunks ih =>
    intro c D z0 zext rest hdata hrl hle hflags hwf hz
    obtain ⟨hs1, hs2, hs3, hs4, hs5, hs6⟩ := hwf ch (List.mem_cons_self ch chunks)
    set R := (chunks.map (encodeChunk (sepOf crlf))).flatten
        ++ (z0 ++ (zext ++ (sepOf crlf ++ rest))) with hR
    have hdataN : c.data = D ++ (ch.sizeStr ++ (ch.ext ++ (sepOf crlf
        ++ (ch.payload ++ (sepOf crlf ++ R))))) := by
      rw [hdata, hR]
      simp only [List.map_cons, List.flatten_cons, encodeChunk, List.append_assoc]
    have hdrop : c.data.drop c.rl
        = (ch.sizeStr ++ ch.ext) ++ (sepOf crlf ++ (ch.payload ++ (sepOf crlf ++ R))) := by
      rw [hdataN, hrl, drop_append_left _ _ _ rfl]
      simp [List.append_assoc]
    have hfind : cstrfindFrom c.data c.rl (sepOf crlf)
        = some (c.rl + (ch.sizeStr ++ ch.ext).length) := by
      unfold cstrfindFrom
      rw [hdrop, cstrfindAux_append (sepOf crlf) (sepOf_ne_nil crlf) _ _
        (lineA_ok crlf ch.sizeStr ch.ext hs2 hs6)]
      simp [Nat.add_comm]
    have hesh := ext_sep_head crlf ch.ext (ch.payload ++ (sepOf crlf ++ R)) hs6
    have hstr : strtol16 (c.data.drop c.rl)
        = (min ((hexValOfDigits ch.sizeStr : Int)) LONG_MAX,
           ch.ext ++ (sepOf crlf ++ (ch.payload ++ (sepOf crlf ++ R)))) := by
      rw [hdrop, List.append_assoc]
      exact strtol16_digits ch.sizeStr _ hs1 hs2 hesh.1 hesh.2.1 hesh.2.2.1
    have hval : (min ((hexValOfDigits ch.sizeStr : Int)) LONG_MAX)
        = (ch.payload.length : Int) := by
      rw [hs3]
      have h31 : (ch.payload.length : Int) < 2 ^ 31 := by exact_mod_cast hs5
      unfold LONG_MAX
      omega
    have hmod : (((ch.payload.length : Int)) % (2 ^ 32 : Int)).toNat = ch.payload.length := by
      rw [Int.emod_eq_of_lt (Int.natCast_nonneg _) (by exact_mod_cast
        (by omega : ch.payload.length < 2 ^ 32))]
      exact Int.toNat_natCast _
    have hperr : ¬((ch.ext ++ (sepOf crlf ++ (ch.payload ++ (sepOf crlf ++ R)))).headD NUL
          ≠ '\n' ∧
        (ch.ext ++ (sepOf crlf ++ (ch.payload ++ (sepOf crlf ++ R)))).headD NUL ≠ '\r' ∧
        (ch.ext ++ (sepOf crlf ++ (ch.payload ++ (sepOf crlf ++ R)))).headD NUL ≠ ';') := by
      push_neg
      intro h1 h2
      rcases hesh.2.2.2 with h | h | h
      · exact absurd h h1
      · exact absurd h h2
      · exact h
    have hzero : ¬(ch.payload.length = 0) := fun h => hs4 (List.length_eq_zero.mp h)
    have hsplitlen : (ch.sizeStr ++ ch.ext).length = ch.sizeStr.length + ch.ext.length :=
      List.length_append _ _
    have hlen : c.data.length = c.rl + ch.sizeStr.length + ch.ext.length
        + (sepOf crlf).length + ch.payload.length + (sepOf crlf).length + R.length := by
      rw [hdataN, hrl]
      simp [List.length_append]
      omega
    have hlenc : ¬(c.data.length < c.rl + (ch.sizeStr ++ ch.ext).length
        + (sepOf crlf).length + ch.payload.length + (sepOf crlf).length) := by omega
    -- the state after processing this chunk
    set c2 : Req := { c with
      data := memmoveIn c.data (c.bodyOff + c.cl)
        (c.rl + (ch.sizeStr ++ ch.ext).length + (sepOf crlf).length) ch.payload.length,
      cl := c.cl + ch.payload.length,
      rl := c.rl + (ch.sizeStr ++ ch.ext).length + (sepOf crlf).length
        + ch.payload.length + (sepOf crlf).length } with hc2
    have hc2data : c2.data = memmoveIn c.data (c.bodyOff + c.cl)
        (c.rl + (ch.sizeStr ++ ch.ext).length + (sepOf crlf).length)
        ch.payload.length := rfl
    have hc2rl : c2.rl = c.rl + (ch.sizeStr ++ ch.ext).length + (sepOf crlf).length
        + ch.payload.length + (sepOf crlf).length := rfl
    have hc2cl : c2.cl = c.cl + ch.payload.length := rfl
    have hc2boff : c2.bodyOff = c.bodyOff := rfl
    have hstep : readChunks ((ch :: chunks).length + 1) c
        = readChunks (chunks.length + 1) c2 := by
      simp only [List.length_cons, readChunks, hflags]
      rw [hfind]
      simp only [hstr, hval, hmod]
      rw [if_neg hperr, if_neg hzero, if_neg hlenc]
    have hml : c2.data.length = c.data.length := by
      rw [hc2data]
      exact memmoveIn_length _ _ _ _ (by omega) (by omega)
    have hdrop2 : c2.data.drop c2.rl = R := by
      have hge : c2.data.drop c2.rl = c.data.drop c2.rl := by
        rw [hc2data, hc2rl]
        exact memmoveIn_drop_ge _ _ _ _ _ (by omega) (by omega) (by omega)
      rw [hge]
      have hsplit : c.data = (D ++ (ch.sizeStr ++ (ch.ext ++ (sepOf crlf
          ++ (ch.payload ++ sepOf crlf))))) ++ R := by
        rw [hdataN]
        simp [List.append_assoc]
      rw [hsplit]
      apply drop_append_left
      rw [hc2rl]
      simp [List.length_append, hrl]
      omega
    have hrl2 : c2.rl = (c2.data.take c2.rl).length := by
      rw [List.length_take, hml]
      have hb : c2.rl ≤ c.data.length := by rw [hc2rl]; omega
      omega
    have hdata2 : c2.data = (c2.data.take c2.rl)
        ++ ((chunks.map (encodeChunk (sepOf crlf))).flatten
            ++ (z0 ++ (zext ++ (sepOf crlf ++ rest)))) := by
      rw [← hR, ← hdrop2]
      exact (List.take_append_drop _ _).symm
    have hle2 : c2.bodyOff + c2.cl ≤ c2.rl := by
      rw [hc2boff, hc2cl, hc2rl]
      omega
    obtain ⟨c', hrun, hst, hcl, hboff, htoff, hrlf, hdlen, hbody⟩ :=
      ih c2 (c2.data.take c2.rl) z0 zext rest hdata2 hrl2 hle2 hflags
        (fun a ha => hwf a (List.mem_cons_of_mem ch ha)) hz
    have hseg : (c2.data.drop c.bodyOff).take c2.cl
        = (c.data.drop c.bodyOff).take c.cl ++ ch.payload := by
      have hsrc : c.data.drop (c.rl + (ch.sizeStr ++ ch.ext).length + (sepOf crlf).length)
          = ch.payload ++ (sepOf crlf ++ R) := by
        have hsplit2 : c.data = (D ++ (ch.sizeStr ++ (ch.ext ++ sepOf crlf)))
            ++ (ch.payload ++ (sepOf crlf ++ R)) := by
          rw [hdataN]
          simp [List.append_assoc]
        rw [hsplit2]
        apply drop_append_left
        simp [List.length_append, hrl]
        omega
      have hsg := memmoveIn_segment c.data (c.bodyOff + c.cl)
        (c.rl + (ch.sizeStr ++ ch.ext).length + (sepOf crlf).length) ch.payload.length
        c.bodyOff (by omega) (by omega) (by omega)
      rw [Nat.add_sub_cancel_left] at hsg
      rw [hc2cl, hc2data, hsg, hsrc, take_append_left _ _ _ rfl]
    refine ⟨c', hstep.trans hrun, hst, ?_, hboff, htoff, ?_, hdlen.trans hml, ?_⟩
    · rw [hcl, hc2cl]
      simp [List.map_cons, List.sum_cons]
      omega
    · rw [hrlf, hc2rl]
      simp [encodeChunk, List.length_append]
      omega
    · rw [hc2boff] at hbody
      rw [hbody, hseg]
      simp [List.map_cons, List.flatten_cons, List.append_assoc]

/-- C1: for a chunked request whose chunk headers are well-formed and fully
received, `read_body` reaches the zero-size chunk with SUCCESS, the body
region `c->body[0 .. c->cl)` is byte-identical to the concatenation of the
chunk payloads in arrival order, `c->cl` is the sum of the chunk sizes, the
state becomes TAIL and `c->tail` points at the trailers. -/
theorem C1_chunked_reassembly (crlf : Bool) (c : Req) (pre z0 zext rest : List Char)
    (chunks : List Chunk)
    (hdata : c.data = pre ++ ((chunks.map (encodeChunk (sepOf crlf))).flatten
        ++ (z0 ++ (zext ++ (sepOf crlf ++ rest)))))
    (hrl : c.rl = pre.length) (hbody : c.bodyOff = pre.length) (hcl : c.cl = 0)
    (hchunked : testBit c.flags REQ_CHUNKED = true)
    (hcrlf : testBit c.flags REQ_CRLF = crlf)
    (hwf : ∀ ch ∈ chunks, chunkWF ch) (hz : lastWF z0 zext) :
    ∃ c' : Req,
      read_body (chunks.length + 1) c = (.SUCCESS, c') ∧
      c'.state = .STATE_TAIL ∧
      c'.cl = (chunks.map (fun ch => ch.payload.length)).sum ∧
      (c'.data.drop c.bodyOff).take c'.cl = (chunks.map Chunk.payload).flatten ∧
      c'.tailOff = c'.rl := by
  obtain ⟨c', hrun, hst, hcl', hboff, htoff, hrl', hdlen, hbodyr⟩ :=
    readChunks_spec crlf chunks c pre z0 zext rest hdata hrl (by omega) hcrlf hwf hz
  refine ⟨c', ?_, hst, ?_, ?_, htoff⟩
  · unfold read_body
    rw [if_pos hchunked]
    exact hrun
  · rw [hcl', hcl]
    simp
  · rw [hbodyr, hcl]
    simp

/-- Witness for C1: the two-chunk body `5\r\nhello\r\n6\r\n world\r\n0\r\n`
reassembles to "hello world" (11 bytes) and the state moves to TAIL. -/
theorem C1_chunked_reassembly_witness :
    ∃ c' : Req,
      read_body 3 reqC1 = (.SUCCESS, c') ∧
      c'.state = .STATE_TAIL ∧
      c'.cl = 11 ∧
      (c'.data.drop 2).take c'.cl = ("hello world").data ∧
      c'.tailOff = c'.rl := by
  obtain ⟨c', h1, h2, h3, h4, h5⟩ := C1_chunked_reassembly true reqC1 ("XY").data
    ("0").data [] ("T").data chunksC1 (by decide) (by decide) (by decide) (by decide)
    (by decide) (by decide) (by decide) (by decide)
  exact ⟨c', h1, h2, h3.trans (by decide), h4.trans (by decide), h5⟩

end HttpSrv
